import Mathlib

/-
Shallow embedding of the speculative-merge engine in src/zuul/merger/merger.py
(classes `Repo` and `Merger`).

Modelling decisions, shared by all definitions below:

- Commit objects are abstracted to natural numbers; `commit.hexsha` is the
  identity on that abstraction, so `mergeChanges` returning `commit.hexsha`
  is modelled as returning the commit number itself.
- The underlying version-control tool (GitPython) is an external collaborator.
  Its outcomes (whether a clone/reset/checkout succeeds, what commit a merge
  or cherry-pick produces, whether a fetch misparses progress output) are
  supplied by an `Oracle`: a bundle of functions fixed for a whole run.
  The orchestration logic itself — what the repository code actually does
  with those outcomes — is translated directly from the source.
- Mutable repository state visible to the modelled code is carried in
  `MState`: the orchestrator registry of known projects (`Merger.repos`),
  the marker references under refs/zuul (`ZuulReference`), the local branch
  heads, and the currently checked-out commit per project.
- Every operation that in Python can touch the working tree or the network
  also returns a `Trace`: the list of version-control operations it
  attempted, in order.  An attempt is recorded even when the oracle makes it
  fail, mirroring the fact that the Python call was issued.
- Python exceptions are modelled with `Except PyErr`: `.error` is an
  exception escaping the modelled function, `.ok none` is a Python function
  returning `None`, `.ok (some c)` returns a commit.
-/

deriving instance DecidableEq for Except

namespace Zuul

/-- Commit identifiers (git commit objects abstracted to naturals). -/
abbrev Commit := Nat

/-- Python exception classes that can escape the modelled functions. -/
inductive PyErr where
  | attributeError
  | noUrl (project : String)
  | assertionError
  | gitCommandError
  | indexError
deriving Repr, DecidableEq

/-- Version-control operations attempted against the external tool. -/
inductive GitOp where
  | updateOp (project : String)
  | reset (project : String)
  | checkout (project : String) (base : Commit)
  | fetchAttempt (project : String) (refspec : String)
  | mergeOp (project : String) (refspec : String) (strategy : Option String)
  | cherryPickOp (project : String) (refspec : String)
  | createRef (project : String) (refname : String) (commit : Commit)
deriving Repr, DecidableEq

abbrev Trace := List GitOp

/-- Association-list lookup (first match wins). -/
def alistGet {α β : Type} [DecidableEq α] : List (α × β) → α → Option β
  | [], _ => none
  | (k', v) :: rest, k => if k' = k then some v else alistGet rest k

/-- Association-list update: replaces the value in place if the key is
present (preserving insertion order, like a Python dict), appends otherwise. -/
def alistSet {α β : Type} [DecidableEq α] : List (α × β) → α → β → List (α × β)
  | [], k, v => [(k, v)]
  | (k', v') :: rest, k, v =>
    if k' = k then (k, v) :: rest else (k', v') :: alistSet rest k v

/-- State mutated by the modelled code: the `Merger.repos` registry keys,
the refs/zuul marker references, the local branch heads and the checked-out
commit of each project working copy. -/
structure MState where
  repos : List String
  zuulRefs : List ((String × String) × Commit)
  heads : List ((String × String) × Commit)
  workHead : List (String × Commit)
deriving Repr, DecidableEq

/-- Outcome of one `origin.fetch` attempt: success, the misparsed-progress
`AssertionError`, or any other error from the tool. -/
inductive FetchOutcome where
  | ok
  | assertFail
  | cmdFail
deriving Repr, DecidableEq

/-- External behaviour of the version-control tool for one run. -/
structure Oracle where
  /-- Does `repo.reset()` (branch bookkeeping, hard reset, clean) succeed? -/
  resetOk : String → Bool
  /-- Remote-tracking branch heads seen on fetch: per project, the list of
  (branch, commit) pairs that `reset` force-copies into local heads. -/
  remoteBranches : String → List (String × Commit)
  /-- Commit of the remote default branch (origin/HEAD) per project. -/
  remoteHead : String → Commit
  /-- Does `repo.checkout(base)` succeed? -/
  checkoutOk : String → Commit → Bool
  /-- Outcome of the first `origin.fetch(refspec)` attempt. -/
  fetchFirst : String → String → FetchOutcome
  /-- Outcome of the retried `origin.fetch(refspec)` attempt. -/
  fetchRetry : String → String → FetchOutcome
  /-- Result of `git merge` of a fetched refspec, given the strategy and the
  currently checked-out commit; `none` is a merge conflict / command error. -/
  mergeResult : String → String → Option String → Option Commit → Option Commit
  /-- Result of `git cherry-pick FETCH_HEAD`, given the checked-out commit. -/
  cherryResult : String → String → Option Commit → Option Commit
  /-- Does `ZuulReference.create` succeed for this project/refname/commit? -/
  createOk : String → String → Commit → Bool
  /-- Does `repo.update()` (fetch + fetch tags) succeed? -/
  updateOk : String → Bool

namespace Repo

/-- Repo.fetch (merger.py:168-178): one `origin.fetch(ref)`; a misparsed
progress `AssertionError` is caught once and the fetch reissued; any outcome
of that second attempt, and any non-AssertionError outcome of the first,
propagates. -/
def fetch (o : Oracle) (p refspec : String) : Except PyErr Unit × Trace :=
  match o.fetchFirst p refspec with
  | .ok => (.ok (), [.fetchAttempt p refspec])
  | .cmdFail => (.error .gitCommandError, [.fetchAttempt p refspec])
  | .assertFail =>
    match o.fetchRetry p refspec with
    | .ok => (.ok (), [.fetchAttempt p refspec, .fetchAttempt p refspec])
    | .assertFail =>
      (.error .assertionError, [.fetchAttempt p refspec, .fetchAttempt p refspec])
    | .cmdFail =>
      (.error .gitCommandError, [.fetchAttempt p refspec, .fetchAttempt p refspec])

/-- Repo.update (merger.py:196-207): fetch (and fetch tags) from origin. -/
def update (o : Oracle) (p : String) : Except PyErr Unit × Trace :=
  if o.updateOk p then (.ok (), [.updateOp p])
  else (.error .gitCommandError, [.updateOp p])

/-- Repo.reset (merger.py:99-116): `update()`, then force-create a local head
for every remote-tracking branch, point HEAD at the remote default branch,
hard-reset and clean.  Local heads with no remote counterpart are left in
place (create_head only force-updates the branches origin reports). -/
def reset (o : Oracle) (s : MState) (p : String) : Except PyErr Unit × MState × Trace :=
  match update o p with
  | (.error e, t) => (.error e, s, t)
  | (.ok _, t) =>
    if o.resetOk p then
      (.ok (),
       { s with
         heads := (o.remoteBranches p).foldl (fun h bc => alistSet h (p, bc.1) bc.2) s.heads,
         workHead := alistSet s.workHead p (o.remoteHead p) },
       t ++ [.reset p])
    else (.error .gitCommandError, s, t ++ [.reset p])

/-- Repo.getBranchHead (merger.py:126-129): `repo.heads[branch].commit`;
an unknown branch raises (IndexError from GitPython). -/
def getBranchHead (s : MState) (p branch : String) : Except PyErr Commit :=
  match alistGet s.heads (p, branch) with
  | some c => .ok c
  | none => .error .indexError

/-- Repo.getCommitFromRef (merger.py:136-141): return the commit of the
named reference, or None when absent.  The zuul marker references are kept
in their own table, disjoint from branch heads. -/
def getCommitFromRef (s : MState) (p refname : String) : Option Commit :=
  alistGet s.zuulRefs (p, refname)

/-- Repo.checkout (merger.py:143-148): point HEAD at the given commit and
hard-reset; returns the new head commit. -/
def checkout (o : Oracle) (s : MState) (p : String) (base : Commit) :
    Except PyErr Commit × MState × Trace :=
  if o.checkoutOk p base then
    (.ok base, { s with workHead := alistSet s.workHead p base }, [.checkout p base])
  else (.error .gitCommandError, s, [.checkout p base])

/-- Repo.merge (merger.py:157-166): fetch the refspec, then `git merge
FETCH_HEAD` (optionally `-s strategy`); a conflict raises GitCommandError;
returns the new head commit. -/
def merge (o : Oracle) (s : MState) (p refspec : String) (strategy : Option String) :
    Except PyErr Commit × MState × Trace :=
  match fetch o p refspec with
  | (.error e, t) => (.error e, s, t)
  | (.ok _, t) =>
    match o.mergeResult p refspec strategy (alistGet s.workHead p) with
    | some c =>
      (.ok c, { s with workHead := alistSet s.workHead p c }, t ++ [.mergeOp p refspec strategy])
    | none => (.error .gitCommandError, s, t ++ [.mergeOp p refspec strategy])

/-- Repo.cherryPick (merger.py:150-155): fetch the refspec, then
`git cherry-pick FETCH_HEAD`; a conflict raises GitCommandError. -/
def cherryPick (o : Oracle) (s : MState) (p refspec : String) :
    Except PyErr Commit × MState × Trace :=
  match fetch o p refspec with
  | (.error e, t) => (.error e, s, t)
  | (.ok _, t) =>
    match o.cherryResult p refspec (alistGet s.workHead p) with
    | some c =>
      (.ok c, { s with workHead := alistSet s.workHead p c }, t ++ [.cherryPickOp p refspec])
    | none => (.error .gitCommandError, s, t ++ [.cherryPickOp p refspec])

/-- Repo.createZuulRef (merger.py:184-188): `ZuulReference.create(repo, ref,
commit)` under refs/zuul, returning the commit the reference points at.
Modelled from the spec: the create-or-overwrite behaviour of the reference
write is GitPython's `Reference.create`, an external collaborator not under
src/; per the spec contract (section 4.2, `createMarkerRef`) it creates the
reference when absent and overwrites it otherwise, and — mirroring
`ZuulReference._points_to_commits_only = True` (merger.py:38-40) — the
referenced object is a commit, enforced here by the `Commit` type of the
argument and of the `zuulRefs` codomain. -/
def createZuulRef (o : Oracle) (s : MState) (p refname : String) (c : Commit) :
    Except PyErr Commit × MState × Trace :=
  if o.createOk p refname c then
    (.ok c, { s with zuulRefs := alistSet s.zuulRefs (p, refname) c },
     [.createRef p refname c])
  else (.error .gitCommandError, s, [.createRef p refname c])

end Repo

/-- One entry of the mergeChanges input queue (the item dict).  The
diagnostic identity fields (number/patchset, oldrev/newrev) are used only
for log messages (merger.py:356-362) and are omitted.  `url` is `none` for
a missing/falsy url. -/
structure ChangeItem where
  project : String
  url : Option String
  branch : String
  ref : String
  refspec : String
  merge_mode : Nat
  connection_name : String
deriving Repr, DecidableEq

/-- Modelled from the spec: the merge-mode constants `MERGER_MERGE`,
`MERGER_MERGE_RESOLVE` and `MERGER_CHERRY_PICK` live in `zuul/model.py`,
which is not under src/; the spec (section 3) gives the enum
MERGE / MERGE_RESOLVE / CHERRY_PICK plus arbitrary other (unsupported)
values, modelled as distinct naturals inside `Nat`. -/
def MERGER_MERGE : Nat := 1

/-- Modelled from the spec: see `MERGER_MERGE`. -/
def MERGER_MERGE_RESOLVE : Nat := 2

/-- Modelled from the spec: see `MERGER_MERGE`. -/
def MERGER_CHERRY_PICK : Nat := 3

/-- The per-call SpeculativeCache `recent`: (project, branch) to the most
recent speculative commit, in Python dict insertion order. -/
abbrev Recent := List ((String × String) × Commit)

namespace Merger

/-- Merger.addProject (merger.py:237-246): build the Repo handle (whose
constructor swallows clone failures, merger.py:52-55) and register it;
the surrounding try/except never fires because no statement in it raises,
so registration always happens. -/
def addProject (s : MState) (p : String) : MState :=
  { s with repos := if p ∈ s.repos then s.repos else s.repos ++ [p] }

/-- Merger.getRepo (merger.py:248-254): return the registered handle, raise
when the project is unknown and no url was supplied, otherwise register it. -/
def getRepo (s : MState) (p : String) (url : Option String) :
    Except PyErr Unit × MState :=
  if p ∈ s.repos then (.ok (), s)
  else
    match url with
    | none => (.error (.noUrl p), s)
    | some _ => (.ok (), addProject s p)

/-- Merger.updateRepo (merger.py:256-262): obtain the handle (outside the
try block), then `repo.update()` with every exception logged and swallowed. -/
def updateRepo (o : Oracle) (s : MState) (p : String) (url : Option String) :
    Except PyErr Unit × MState × Trace :=
  match getRepo s p url with
  | (.error e, s1) => (.error e, s1, [])
  | (.ok _, s1) =>
    match Repo.update o p with
    | (_, t) => (.ok (), s1, t)

/-- Merger._mergeChange (merger.py:264-291): look up the handle, check out
the base (any failure is caught and returns None), then dispatch on the
merge mode; merge conflicts (GitCommandError) and every other exception —
including the `raise` for an unsupported mode — are caught and return None. -/
def _mergeChange (o : Oracle) (s : MState) (item : ChangeItem) (base : Commit) :
    Except PyErr (Option Commit) × MState × Trace :=
  match getRepo s item.project item.url with
  | (.error e, s1) => (.error e, s1, [])
  | (.ok _, s1) =>
    match Repo.checkout o s1 item.project base with
    | (.error _, s2, t) => (.ok none, s2, t)
    | (.ok _, s2, t) =>
      if item.merge_mode = MERGER_MERGE then
        match Repo.merge o s2 item.project item.refspec none with
        | (.ok c, s3, t2) => (.ok (some c), s3, t ++ t2)
        | (.error _, s3, t2) => (.ok none, s3, t ++ t2)
      else if item.merge_mode = MERGER_MERGE_RESOLVE then
        match Repo.merge o s2 item.project item.refspec (some "resolve") with
        | (.ok c, s3, t2) => (.ok (some c), s3, t ++ t2)
        | (.error _, s3, t2) => (.ok none, s3, t ++ t2)
      else if item.merge_mode = MERGER_CHERRY_PICK then
        match Repo.cherryPick o s2 item.project item.refspec with
        | (.ok c, s3, t2) => (.ok (some c), s3, t ++ t2)
        | (.error _, s3, t2) => (.ok none, s3, t ++ t2)
      else
        (.ok none, s2, t)

/-- The zuul-ref publication loop of Merger._mergeItem (merger.py:341-350):
for every (project, branch) entry of `recent`, in insertion order, look up
the handle with no url and write the marker reference
`branch + "/" + item.ref` at the cached commit; the first exception makes
the item return None (the flag is false), leaving earlier writes in place. -/
def publishRefs (o : Oracle) (itemRef : String) :
    MState → Recent → Bool × MState × Trace
  | s, [] => (true, s, [])
  | s, ((p, b), mrc) :: rest =>
    match getRepo s p none with
    | (.error _, s1) => (false, s1, [])
    | (.ok _, s1) =>
      match Repo.createZuulRef o s1 p (b ++ "/" ++ itemRef) mrc with
      | (.error _, s2, t) => (false, s2, t)
      | (.ok _, s2, t) =>
        let r := publishRefs o itemRef s2 rest
        (r.1, r.2.1, t ++ r.2.2)

/-- Merger._mergeItem, tail after the merge base is known (merger.py:
333-351): `_mergeChange`, then record the commit in `recent` and run the
publication loop. -/
def applyAndPublish (o : Oracle) (s : MState) (item : ChangeItem)
    (recent : Recent) (base : Commit) :
    Except PyErr (Option Commit) × MState × Recent × Trace :=
  match _mergeChange o s item base with
  | (.error e, s1, t) => (.error e, s1, recent, t)
  | (.ok none, s1, t) => (.ok none, s1, recent, t)
  | (.ok (some c), s1, t) =>
    let recent1 := alistSet recent (item.project, item.branch) c
    match publishRefs o item.ref s1 recent1 with
    | (true, s2, t2) => (.ok (some c), s2, recent1, t ++ t2)
    | (false, s2, t2) => (.ok none, s2, recent1, t ++ t2)

/-- Merger._mergeItem (merger.py:301-351).  `_setGitSsh` only mutates the
process environment and is not part of the modelled state.  Steps: handle
lookup (can raise), marker-reference short-circuit, base selection from
`recent` or via reset + branch head (reset failures are caught and return
None; a missing branch in getBranchHead raises), then apply and publish. -/
def _mergeItem (o : Oracle) (s : MState) (item : ChangeItem) (recent : Recent) :
    Except PyErr (Option Commit) × MState × Recent × Trace :=
  match getRepo s item.project item.url with
  | (.error e, s1) => (.error e, s1, recent, [])
  | (.ok _, s1) =>
    let key := (item.project, item.branch)
    let zuul_ref := item.branch ++ "/" ++ item.ref
    match Repo.getCommitFromRef s1 item.project zuul_ref with
    | some commit => (.ok (some commit), s1, alistSet recent key commit, [])
    | none =>
      match alistGet recent key with
      | some base => applyAndPublish o s1 item recent base
      | none =>
        match Repo.reset o s1 item.project with
        | (.error _, s2, t) => (.ok none, s2, recent, t)
        | (.ok _, s2, t) =>
          match Repo.getBranchHead s2 item.project item.branch with
          | .error e => (.error e, s2, recent, t)
          | .ok base =>
            let r := applyAndPublish o s2 item recent base
            (r.1, r.2.1, r.2.2.1, t ++ r.2.2.2)

/-- The loop body of Merger.mergeChanges (merger.py:353-366), carrying the
running `commit` variable; at the end of the queue `commit.hexsha` is taken,
which raises AttributeError when `commit` is still None (empty queue). -/
def mergeLoop (o : Oracle) :
    MState → Recent → Option Commit → List ChangeItem →
    Except PyErr (Option Commit) × MState × Trace
  | s, _, none, [] => (.error .attributeError, s, [])
  | s, _, some c, [] => (.ok (some c), s, [])
  | s, recent, _, item :: rest =>
    match _mergeItem o s item recent with
    | (.error e, s1, _, t) => (.error e, s1, t)
    | (.ok none, s1, _, t) => (.ok none, s1, t)
    | (.ok (some c), s1, recent1, t) =>
      let r := mergeLoop o s1 recent1 (some c) rest
      (r.1, r.2.1, t ++ r.2.2)

/-- Merger.mergeChanges (merger.py:353-366): process the queue in order with
an empty SpeculativeCache, stopping at the first item returning None. -/
def mergeChanges (o : Oracle) (s : MState) (items : List ChangeItem) :
    Except PyErr (Option Commit) × MState × Trace :=
  mergeLoop o s [] none items

/-- Transparent description of a fully successful queue pass: every item,
processed in order through `_mergeItem`, returns a commit, and the value of
the pass is the commit of the last item.  Used to characterize when
`mergeChanges` returns a commit identifier. -/
def runItems (o : Oracle) : MState → Recent → List ChangeItem → Option (MState × Recent × Commit)
  | _, _, [] => none
  | s, r, item :: rest =>
    match _mergeItem o s item r with
    | (.ok (some c), s1, r1, _) =>
      match rest with
      | [] => some (s1, r1, c)
      | _ :: _ => runItems o s1 r1 rest
    | (.ok none, _, _, _) => none
    | (.error _, _, _, _) => none

end Merger

/-- Every (project, branch) key of the SpeculativeCache belongs to a project
registered in the orchestrator registry. -/
def RecentOk (s : MState) (r : Recent) : Prop :=
  ∀ kv ∈ r, kv.1.1 ∈ s.repos

/-
Concrete scenario material used by counterexamples and witnesses.
-/

/-- Empty initial orchestrator state: no registered project, no marker
references, no local heads. -/
def s0 : MState := ⟨[], [], [], []⟩

/-- A well-behaved external tool: every operation succeeds; merging refspec
s1 / s2 / s3 produces commit 11 / 21 / 12; the remote branch `b` of project
p1 is at commit 10, of every other project at commit 20. -/
def oBase : Oracle := {
  resetOk := fun _ => true
  remoteBranches := fun p => if p = "p1" then [("b", 10)] else [("b", 20)]
  remoteHead := fun _ => 0
  checkoutOk := fun _ _ => true
  fetchFirst := fun _ _ => .ok
  fetchRetry := fun _ _ => .ok
  mergeResult := fun _ rs _ _ =>
    if rs = "s1" then some 11 else if rs = "s2" then some 21
    else if rs = "s3" then some 12 else none
  cherryResult := fun _ _ _ => some 99
  createOk := fun _ _ _ => true
  updateOk := fun _ => true }

/-- Queue item: change r1 on (p1, b), cleanly mergeable refspec s1. -/
def itemA : ChangeItem := ⟨"p1", some "u1", "b", "r1", "s1", MERGER_MERGE, "conn"⟩

/-- Queue item: change r2 on (p2, b), cleanly mergeable refspec s2. -/
def itemB : ChangeItem := ⟨"p2", some "u2", "b", "r2", "s2", MERGER_MERGE, "conn"⟩

/-- Queue item: change r3 on (p1, b), stacked on itemA's result. -/
def itemC : ChangeItem := ⟨"p1", some "u1", "b", "r3", "s3", MERGER_MERGE, "conn"⟩

/-- Queue item with an unsupported merge mode (99). -/
def itemU : ChangeItem := ⟨"p1", some "u1", "b", "r1", "s1", 99, "conn"⟩

/-- Like `oBase`, but writing the marker reference b/r3 in project p2 fails
(the publication loop for itemC aborts on its second entry). -/
def oC1 : Oracle :=
  { oBase with createOk := fun p rn _ => !(p == "p2" && rn == "b/r3") }

/-- Queue item on (p1, b1) for the C2 scenario. -/
def itemA2 : ChangeItem := ⟨"p1", some "u1", "b1", "r1", "s1", MERGER_MERGE, "conn"⟩

/-- Queue item on (p2, b2) for the C2 scenario; its marker reference b2/r2
already exists in `sC2`. -/
def itemB2 : ChangeItem := ⟨"p2", some "u2", "b2", "r2", "s2", MERGER_MERGE, "conn"⟩

/-- Like `oBase` with remote branches b1 (p1) and b2 (other projects). -/
def oC2 : Oracle :=
  { oBase with remoteBranches := fun p => if p = "p1" then [("b1", 10)] else [("b2", 20)] }

/-- State holding a marker reference b2/r2 at commit 77 in project p2, left
over from an earlier mergeChanges call. -/
def sC2 : MState := ⟨[], [(("p2", "b2/r2"), 77)], [], []⟩

/-- Oracle where every fetch attempt raises the misparsed-progress
AssertionError, including the retry. -/
def oC8 : Oracle :=
  { oBase with fetchFirst := fun _ _ => .assertFail, fetchRetry := fun _ _ => .assertFail }

/-
Association-list and string helper lemmas.
-/

theorem alistGet_set_same {α β : Type} [DecidableEq α] (m : List (α × β)) (k : α) (v : β) :
    alistGet (alistSet m k v) k = some v := by
  induction m with
  | nil => simp [alistSet, alistGet]
  | cons kv rest ih =>
    obtain ⟨k', v'⟩ := kv
    by_cases h : k' = k
    · simp [alistSet, alistGet, h]
    · simp [alistSet, alistGet, h, ih]

theorem alistGet_set_ne {α β : Type} [DecidableEq α] (m : List (α × β)) (k k' : α) (v : β)
    (h : k' ≠ k) : alistGet (alistSet m k v) k' = alistGet m k' := by
  have h' : ¬(k = k') := fun e => h e.symm
  induction m with
  | nil => simp [alistSet, alistGet, h']
  | cons kv rest ih =>
    obtain ⟨k0, v0⟩ := kv
    by_cases h0 : k0 = k
    · subst h0
      simp [alistSet, alistGet, h']
    · by_cases h1 : k0 = k'
      · simp [alistSet, alistGet, h0, h1, h]
      · simp [alistSet, alistGet, h0, h1, ih]

theorem mem_alistSet {α β : Type} [DecidableEq α] (m : List (α × β)) (k : α) (v : β)
    (kv : α × β) (h : kv ∈ alistSet m k v) : kv = (k, v) ∨ kv ∈ m := by
  induction m with
  | nil => simpa [alistSet] using h
  | cons kv0 rest ih =>
    obtain ⟨k0, v0⟩ := kv0
    by_cases h0 : k0 = k
    · simp only [alistSet, h0, if_pos rfl] at h
      rcases List.mem_cons.mp h with h1 | h1
      · exact Or.inl h1
      · exact Or.inr (List.mem_cons_of_mem _ h1)
    · simp only [alistSet, h0, if_neg h0] at h
      rcases List.mem_cons.mp h with h1 | h1
      · exact Or.inr (h1 ▸ List.mem_cons_self _ _)
      · rcases ih h1 with h2 | h2
        · exact Or.inl h2
        · exact Or.inr (List.mem_cons_of_mem _ h2)

theorem mem_keys_alistSet {α β : Type} [DecidableEq α] (m : List (α × β)) (k : α) (v : β)
    (x : α) (h : x ∈ (alistSet m k v).map Prod.fst) : x = k ∨ x ∈ m.map Prod.fst := by
  rcases List.mem_map.mp h with ⟨kv, hmem, hx⟩
  rcases mem_alistSet m k v kv hmem with h1 | h1
  · left
    rw [← hx, h1]
  · right
    exact hx ▸ List.mem_map_of_mem Prod.fst h1

theorem alistSet_keys_nodup {α β : Type} [DecidableEq α] (m : List (α × β)) (k : α) (v : β)
    (h : (m.map Prod.fst).Nodup) : ((alistSet m k v).map Prod.fst).Nodup := by
  induction m with
  | nil => simp [alistSet]
  | cons kv0 rest ih =>
    obtain ⟨k0, v0⟩ := kv0
    simp only [List.map_cons, List.nodup_cons] at h
    by_cases h0 : k0 = k
    · subst h0
      have hset : alistSet ((k0, v0) :: rest) k0 v = (k0, v) :: rest := by
        simp [alistSet]
      rw [hset, List.map_cons]
      exact List.nodup_cons.mpr ⟨h.1, h.2⟩
    · have htail := ih h.2
      have hknot : k0 ∉ (alistSet rest k v).map Prod.fst := by
        intro hk
        rcases mem_keys_alistSet rest k v k0 hk with h1 | h1
        · exact h0 h1
        · exact h.1 h1
      have hset : alistSet ((k0, v0) :: rest) k v = (k0, v0) :: alistSet rest k v := by
        simp [alistSet, h0]
      rw [hset, List.map_cons]
      exact List.nodup_cons.mpr ⟨hknot, htail⟩

theorem alistGet_foldl_set_notmem {β : Type} (l : List (String × β))
    (h0 : List ((String × String) × β)) (p b : String)
    (hnot : ∀ bc ∈ l, bc.1 ≠ b) :
    alistGet (l.foldl (fun h bc => alistSet h (p, bc.1) bc.2) h0) (p, b) =
      alistGet h0 (p, b) := by
  induction l generalizing h0 with
  | nil => simp
  | cons bc rest ih =>
    obtain ⟨b0, c0⟩ := bc
    have hb0 : b0 ≠ b := hnot (b0, c0) (List.mem_cons_self _ _)
    have hne : ((p, b) : String × String) ≠ (p, b0) := by
      intro e
      exact hb0 (Prod.ext_iff.mp e).2.symm
    rw [List.foldl_cons, ih _ (fun bc hm => hnot bc (List.mem_cons_of_mem _ hm))]
    exact alistGet_set_ne h0 (p, b0) (p, b) c0 hne

theorem alistGet_foldl_set_mem {β : Type} (l : List (String × β))
    (h0 : List ((String × String) × β)) (p b : String) (c : β)
    (hnd : (l.map Prod.fst).Nodup) (hmem : (b, c) ∈ l) :
    alistGet (l.foldl (fun h bc => alistSet h (p, bc.1) bc.2) h0) (p, b) = some c := by
  induction l generalizing h0 with
  | nil => cases hmem
  | cons bc rest ih =>
    obtain ⟨b0, c0⟩ := bc
    simp only [List.map_cons, List.nodup_cons] at hnd
    rcases List.mem_cons.mp hmem with h1 | h1
    · have hb : b = b0 := congrArg Prod.fst h1
      have hc : c = c0 := congrArg Prod.snd h1
      subst hb
      subst hc
      rw [List.foldl_cons,
          alistGet_foldl_set_notmem rest _ p b
            (fun kc hm hk => hnd.1 (hk ▸ List.mem_map_of_mem Prod.fst hm))]
      exact alistGet_set_same h0 (p, b) c
    · rw [List.foldl_cons]
      exact ih (alistSet h0 (p, b0) c0) hnd.2 h1

theorem string_append_cancel_right (a b s : String) (h : a ++ s = b ++ s) : a = b := by
  have h2 := congrArg String.data h
  simp only [String.data_append] at h2
  exact String.ext (List.append_cancel_right h2)

theorem markerName_inj (b1 b2 r : String) (h : b1 ++ "/" ++ r = b2 ++ "/" ++ r) :
    b1 = b2 :=
  string_append_cancel_right b1 b2 "/" (string_append_cancel_right _ _ r h)

/-
State-preservation lemmas for the handle registry and for the Repo-level
operations.
-/

theorem getRepo_zuulRefs (s : MState) (p : String) (url : Option String) :
    ((Merger.getRepo s p url).2).zuulRefs = s.zuulRefs := by
  by_cases hp : p ∈ s.repos
  · simp [Merger.getRepo, hp]
  · cases url <;> simp [Merger.getRepo, hp, Merger.addProject]

theorem getRepo_heads (s : MState) (p : String) (url : Option String) :
    ((Merger.getRepo s p url).2).heads = s.heads := by
  by_cases hp : p ∈ s.repos
  · simp [Merger.getRepo, hp]
  · cases url <;> simp [Merger.getRepo, hp, Merger.addProject]

theorem getRepo_repos_sub (s : MState) (p : String) (url : Option String) :
    s.repos ⊆ ((Merger.getRepo s p url).2).repos := by
  by_cases hp : p ∈ s.repos
  · simp only [Merger.getRepo, if_pos hp]
    exact fun x hx => hx
  · cases url with
    | none => simp [Merger.getRepo, hp]
    | some u =>
      simp only [Merger.getRepo, if_neg hp, Merger.addProject]
      exact fun x hx => List.mem_append_left _ hx

theorem getRepo_ok_mem (s : MState) (p : String) (url : Option String)
    (h : (Merger.getRepo s p url).1 = .ok ()) :
    p ∈ ((Merger.getRepo s p url).2).repos := by
  by_cases hp : p ∈ s.repos
  · simp [Merger.getRepo, hp]
  · cases url with
    | none => simp [Merger.getRepo, hp] at h
    | some u => simp [Merger.getRepo, hp, Merger.addProject]

theorem getRepo_mem_eq (s : MState) (p : String) (url : Option String)
    (h : p ∈ s.repos) : Merger.getRepo s p url = (.ok (), s) := by
  simp [Merger.getRepo, h]

theorem getRepo_ok (s : MState) (p : String) (url : Option String)
    (h : url ≠ none ∨ p ∈ s.repos) : (Merger.getRepo s p url).1 = .ok () := by
  by_cases hp : p ∈ s.repos
  · simp [Merger.getRepo, hp]
  · cases url with
    | none =>
      rcases h with h | h
      · exact absurd rfl h
      · exact absurd h hp
    | some u => simp [Merger.getRepo, hp]

theorem reset_zuulRefs (o : Oracle) (s : MState) (p : String) :
    ((Repo.reset o s p).2.1).zuulRefs = s.zuulRefs := by
  unfold Repo.reset
  rcases hu : Repo.update o p with ⟨(e | u), t⟩
  · rfl
  · by_cases hr : o.resetOk p <;> simp [hr]

theorem reset_repos (o : Oracle) (s : MState) (p : String) :
    ((Repo.reset o s p).2.1).repos = s.repos := by
  unfold Repo.reset
  rcases hu : Repo.update o p with ⟨(e | u), t⟩
  · rfl
  · by_cases hr : o.resetOk p <;> simp [hr]

theorem checkout_zuulRefs (o : Oracle) (s : MState) (p : String) (base : Commit) :
    ((Repo.checkout o s p base).2.1).zuulRefs = s.zuulRefs := by
  unfold Repo.checkout
  by_cases hc : o.checkoutOk p base <;> simp [hc]

theorem checkout_repos (o : Oracle) (s : MState) (p : String) (base : Commit) :
    ((Repo.checkout o s p base).2.1).repos = s.repos := by
  unfold Repo.checkout
  by_cases hc : o.checkoutOk p base <;> simp [hc]

theorem merge_zuulRefs (o : Oracle) (s : MState) (p refspec : String)
    (strategy : Option String) :
    ((Repo.merge o s p refspec strategy).2.1).zuulRefs = s.zuulRefs := by
  unfold Repo.merge
  rcases hf : Repo.fetch o p refspec with ⟨(e | u), t⟩
  · rfl
  · rcases hm : o.mergeResult p refspec strategy (alistGet s.workHead p) with _ | c <;> simp [hm]

theorem merge_repos (o : Oracle) (s : MState) (p refspec : String)
    (strategy : Option String) :
    ((Repo.merge o s p refspec strategy).2.1).repos = s.repos := by
  unfold Repo.merge
  rcases hf : Repo.fetch o p refspec with ⟨(e | u), t⟩
  · rfl
  · rcases hm : o.mergeResult p refspec strategy (alistGet s.workHead p) with _ | c <;> simp [hm]

theorem cherryPick_zuulRefs (o : Oracle) (s : MState) (p refspec : String) :
    ((Repo.cherryPick o s p refspec).2.1).zuulRefs = s.zuulRefs := by
  unfold Repo.cherryPick
  rcases hf : Repo.fetch o p refspec with ⟨(e | u), t⟩
  · rfl
  · rcases hm : o.cherryResult p refspec (alistGet s.workHead p) with _ | c <;> simp [hm]

theorem cherryPick_repos (o : Oracle) (s : MState) (p refspec : String) :
    ((Repo.cherryPick o s p refspec).2.1).repos = s.repos := by
  unfold Repo.cherryPick
  rcases hf : Repo.fetch o p refspec with ⟨(e | u), t⟩
  · rfl
  · rcases hm : o.cherryResult p refspec (alistGet s.workHead p) with _ | c <;> simp [hm]

theorem createZuulRef_repos (o : Oracle) (s : MState) (p refname : String) (c : Commit) :
    ((Repo.createZuulRef o s p refname c).2.1).repos = s.repos := by
  unfold Repo.createZuulRef
  by_cases hc : o.createOk p refname c <;> simp [hc]

theorem checkout_trace (o : Oracle) (s : MState) (p : String) (base : Commit) :
    (Repo.checkout o s p base).2.2 = [GitOp.checkout p base] := by
  unfold Repo.checkout
  by_cases hc : o.checkoutOk p base <;> simp [hc]

theorem createZuulRef_ok_eq (o : Oracle) (s : MState) (p name : String) (c : Commit)
    (h : o.createOk p name c = true) :
    Repo.createZuulRef o s p name c =
      (.ok c, { s with zuulRefs := alistSet s.zuulRefs (p, name) c },
       [.createRef p name c]) := by
  unfold Repo.createZuulRef
  simp [h]

theorem createZuulRef_fail_eq (o : Oracle) (s : MState) (p name : String) (c : Commit)
    (h : o.createOk p name c = false) :
    Repo.createZuulRef o s p name c =
      (.error .gitCommandError, s, [.createRef p name c]) := by
  unfold Repo.createZuulRef
  simp [h]

theorem reset_ok_eq (o : Oracle) (s : MState) (p : String)
    (hu : o.updateOk p = true) (hr : o.resetOk p = true) :
    Repo.reset o s p =
      (.ok (),
       { s with
         heads := (o.remoteBranches p).foldl (fun h bc => alistSet h (p, bc.1) bc.2) s.heads,
         workHead := alistSet s.workHead p (o.remoteHead p) },
       [.updateOp p, .reset p]) := by
  unfold Repo.reset Repo.update
  simp [hu, hr]

theorem getRepo_none_state (s : MState) (p : String) :
    (Merger.getRepo s p none).2 = s := by
  by_cases hp : p ∈ s.repos <;> simp [Merger.getRepo, hp]

/-- Combined facts about `_mergeChange`: it never touches the marker
references, never unregisters a project, and its trace is empty (handle
lookup raised) or starts with the checkout of the base — the checkout
attempt happens before the merge-mode dispatch. -/
theorem mergeChange_cases (o : Oracle) (s : MState) (item : ChangeItem) (base : Commit) :
    ((Merger._mergeChange o s item base).2.1).zuulRefs = s.zuulRefs ∧
    s.repos ⊆ ((Merger._mergeChange o s item base).2.1).repos ∧
    ((Merger.getRepo s item.project item.url).1 = .ok () →
      ∃ t', (Merger._mergeChange o s item base).2.2 =
        GitOp.checkout item.project base :: t') := by
  unfold Merger._mergeChange
  split
  next e s1 hg =>
    refine ⟨?_, ?_, ?_⟩
    · have := getRepo_zuulRefs s item.project item.url
      rw [hg] at this
      exact this
    · have := getRepo_repos_sub s item.project item.url
      rw [hg] at this
      exact this
    · rw [hg]
      intro hok
      simp at hok
  next u s1 hg =>
    have hg1 : s1.zuulRefs = s.zuulRefs := by
      have := getRepo_zuulRefs s item.project item.url
      rw [hg] at this
      exact this
    have hg2 : s.repos ⊆ s1.repos := by
      have := getRepo_repos_sub s item.project item.url
      rw [hg] at this
      exact this
    split
    next e s2 tc hc =>
      have hc1 : s2.zuulRefs = s1.zuulRefs := by
        have := checkout_zuulRefs o s1 item.project base
        rw [hc] at this
        exact this
      have hc2 : s2.repos = s1.repos := by
        have := checkout_repos o s1 item.project base
        rw [hc] at this
        exact this
      have hct : tc = [GitOp.checkout item.project base] := by
        have := checkout_trace o s1 item.project base
        rw [hc] at this
        exact this
      exact ⟨hc1.trans hg1, by rw [hc2]; exact hg2, fun _ => ⟨[], by rw [hct]⟩⟩
    next c0 s2 tc hc =>
      have hc1 : s2.zuulRefs = s1.zuulRefs := by
        have := checkout_zuulRefs o s1 item.project base
        rw [hc] at this
        exact this
      have hc2 : s2.repos = s1.repos := by
        have := checkout_repos o s1 item.project base
        rw [hc] at this
        exact this
      have hct : tc = [GitOp.checkout item.project base] := by
        have := checkout_trace o s1 item.project base
        rw [hc] at this
        exact this
      split
      next m1 =>
        split
        next c s3 tm hm =>
          have hm1 : s3.zuulRefs = s2.zuulRefs := by
            have := merge_zuulRefs o s2 item.project item.refspec none
            rw [hm] at this
            exact this
          have hm2 : s3.repos = s2.repos := by
            have := merge_repos o s2 item.project item.refspec none
            rw [hm] at this
            exact this
          exact ⟨hm1.trans (hc1.trans hg1), by rw [hm2, hc2]; exact hg2,
            fun _ => ⟨tm, by simp [hct]⟩⟩
        next e s3 tm hm =>
          have hm1 : s3.zuulRefs = s2.zuulRefs := by
            have := merge_zuulRefs o s2 item.project item.refspec none
            rw [hm] at this
            exact this
          have hm2 : s3.repos = s2.repos := by
            have := merge_repos o s2 item.project item.refspec none
            rw [hm] at this
            exact this
          exact ⟨hm1.trans (hc1.trans hg1), by rw [hm2, hc2]; exact hg2,
            fun _ => ⟨tm, by simp [hct]⟩⟩
      next m1 =>
        split
        next m2 =>
          split
          next c s3 tm hm =>
            have hm1 : s3.zuulRefs = s2.zuulRefs := by
              have := merge_zuulRefs o s2 item.project item.refspec (some "resolve")
              rw [hm] at this
              exact this
            have hm2 : s3.repos = s2.repos := by
              have := merge_repos o s2 item.project item.refspec (some "resolve")
              rw [hm] at this
              exact this
            exact ⟨hm1.trans (hc1.trans hg1), by rw [hm2, hc2]; exact hg2,
              fun _ => ⟨tm, by simp [hct]⟩⟩
          next e s3 tm hm =>
            have hm1 : s3.zuulRefs = s2.zuulRefs := by
              have := merge_zuulRefs o s2 item.project item.refspec (some "resolve")
              rw [hm] at this
              exact this
            have hm2 : s3.repos = s2.repos := by
              have := merge_repos o s2 item.project item.refspec (some "resolve")
              rw [hm] at this
              exact this
            exact ⟨hm1.trans (hc1.trans hg1), by rw [hm2, hc2]; exact hg2,
              fun _ => ⟨tm, by simp [hct]⟩⟩
        next m2 =>
          split
          next m3 =>
            split
            next c s3 tm hm =>
              have hm1 : s3.zuulRefs = s2.zuulRefs := by
                have := cherryPick_zuulRefs o s2 item.project item.refspec
                rw [hm] at this
                exact this
              have hm2 : s3.repos = s2.repos := by
                have := cherryPick_repos o s2 item.project item.refspec
                rw [hm] at this
                exact this
              exact ⟨hm1.trans (hc1.trans hg1), by rw [hm2, hc2]; exact hg2,
                fun _ => ⟨tm, by simp [hct]⟩⟩
            next e s3 tm hm =>
              have hm1 : s3.zuulRefs = s2.zuulRefs := by
                have := cherryPick_zuulRefs o s2 item.project item.refspec
                rw [hm] at this
                exact this
              have hm2 : s3.repos = s2.repos := by
                have := cherryPick_repos o s2 item.project item.refspec
                rw [hm] at this
                exact this
              exact ⟨hm1.trans (hc1.trans hg1), by rw [hm2, hc2]; exact hg2,
                fun _ => ⟨tm, by simp [hct]⟩⟩
          next m3 =>
            exact ⟨hc1.trans hg1, by rw [hc2]; exact hg2, fun _ => ⟨[], by rw [hct]⟩⟩

/-
Characterization of one step of the publication loop, and its invariants.
-/

theorem publishRefs_cons_noRepo (o : Oracle) (ref : String) (s : MState)
    (p b : String) (v : Commit) (rest : Recent) (hp : p ∉ s.repos) :
    Merger.publishRefs o ref s (((p, b), v) :: rest) = (false, s, []) := by
  unfold Merger.publishRefs
  simp [Merger.getRepo, hp]

theorem publishRefs_cons_fail (o : Oracle) (ref : String) (s : MState)
    (p b : String) (v : Commit) (rest : Recent) (hp : p ∈ s.repos)
    (hcr : o.createOk p (b ++ "/" ++ ref) v = false) :
    Merger.publishRefs o ref s (((p, b), v) :: rest) =
      (false, s, [GitOp.createRef p (b ++ "/" ++ ref) v]) := by
  unfold Merger.publishRefs
  rw [getRepo_mem_eq s p none hp]
  dsimp only
  rw [createZuulRef_fail_eq o s p (b ++ "/" ++ ref) v hcr]

theorem publishRefs_cons_ok (o : Oracle) (ref : String) (s : MState)
    (p b : String) (v : Commit) (rest : Recent) (hp : p ∈ s.repos)
    (hcr : o.createOk p (b ++ "/" ++ ref) v = true) :
    Merger.publishRefs o ref s (((p, b), v) :: rest) =
      ((Merger.publishRefs o ref
          { s with zuulRefs := alistSet s.zuulRefs (p, b ++ "/" ++ ref) v } rest).1,
       (Merger.publishRefs o ref
          { s with zuulRefs := alistSet s.zuulRefs (p, b ++ "/" ++ ref) v } rest).2.1,
       GitOp.createRef p (b ++ "/" ++ ref) v ::
       (Merger.publishRefs o ref
          { s with zuulRefs := alistSet s.zuulRefs (p, b ++ "/" ++ ref) v } rest).2.2) := by
  conv_lhs => rw [Merger.publishRefs]
  rw [getRepo_mem_eq s p none hp]
  dsimp only
  rw [createZuulRef_ok_eq o s p (b ++ "/" ++ ref) v hcr]
  simp

theorem publishRefs_repos (o : Oracle) (ref : String) (entries : Recent) :
    ∀ s : MState, ((Merger.publishRefs o ref s entries).2.1).repos = s.repos := by
  induction entries with
  | nil => intro s; rfl
  | cons kv rest ih =>
    intro s
    obtain ⟨⟨p, b⟩, v⟩ := kv
    by_cases hp : p ∈ s.repos
    · by_cases hcr : o.createOk p (b ++ "/" ++ ref) v
      · rw [publishRefs_cons_ok o ref s p b v rest hp hcr]
        exact ih _
      · rw [publishRefs_cons_fail o ref s p b v rest hp (by simpa using hcr)]
    · rw [publishRefs_cons_noRepo o ref s p b v rest hp]

theorem publishRefs_get_other (o : Oracle) (ref : String) (q : String × String)
    (entries : Recent) :
    ∀ s : MState, (∀ kv ∈ entries, ((kv.1.1 : String), kv.1.2 ++ "/" ++ ref) ≠ q) →
      alistGet ((Merger.publishRefs o ref s entries).2.1).zuulRefs q =
        alistGet s.zuulRefs q := by
  induction entries with
  | nil => intro s _; rfl
  | cons kv rest ih =>
    intro s hq
    obtain ⟨⟨p, b⟩, v⟩ := kv
    by_cases hp : p ∈ s.repos
    · by_cases hcr : o.createOk p (b ++ "/" ++ ref) v
      · rw [publishRefs_cons_ok o ref s p b v rest hp hcr]
        rw [ih _ (fun kv0 h0 => hq kv0 (List.mem_cons_of_mem _ h0))]
        exact alistGet_set_ne s.zuulRefs (p, b ++ "/" ++ ref) q v
          (fun e => hq ((p, b), v) (List.mem_cons_self _ _) e.symm)
      · rw [publishRefs_cons_fail o ref s p b v rest hp (by simpa using hcr)]
    · rw [publishRefs_cons_noRepo o ref s p b v rest hp]

theorem publishRefs_true_get (o : Oracle) (ref : String) (entries : Recent) :
    ∀ s : MState, (entries.map Prod.fst).Nodup →
      (Merger.publishRefs o ref s entries).1 = true →
      ∀ kv ∈ entries,
        alistGet ((Merger.publishRefs o ref s entries).2.1).zuulRefs
          (kv.1.1, kv.1.2 ++ "/" ++ ref) = some kv.2 := by
  induction entries with
  | nil =>
    intro s _ _ kv hkv
    cases hkv
  | cons kv0 rest ih =>
    intro s hnd hok kv hkv
    obtain ⟨⟨p, b⟩, v⟩ := kv0
    simp only [List.map_cons, List.nodup_cons] at hnd
    by_cases hp : p ∈ s.repos
    · by_cases hcr : o.createOk p (b ++ "/" ++ ref) v
      · rw [publishRefs_cons_ok o ref s p b v rest hp hcr] at hok ⊢
        rcases List.mem_cons.mp hkv with hkv1 | hkv1
        · subst hkv1
          rw [publishRefs_get_other o ref _ rest _ ?_]
          · exact alistGet_set_same s.zuulRefs (p, b ++ "/" ++ ref) v
          · intro kv0 h0 he
            have hb : kv0.1.2 = b := markerName_inj kv0.1.2 b ref (congrArg Prod.snd he)
            have hpp : kv0.1.1 = p := congrArg Prod.fst he
            exact hnd.1 (by
              have : kv0.1 = (p, b) := Prod.ext hpp hb
              exact this ▸ List.mem_map_of_mem Prod.fst h0)
        · exact ih _ hnd.2 hok kv hkv1
      · rw [publishRefs_cons_fail o ref s p b v rest hp (by simpa using hcr)] at hok
        cases hok
    · rw [publishRefs_cons_noRepo o ref s p b v rest hp] at hok
      cases hok

theorem publishRefs_no_createRef (o : Oracle) (ref : String) (entries : Recent) :
    ∀ s : MState,
      (∀ p rn c, GitOp.createRef p rn c ∉ (Merger.publishRefs o ref s entries).2.2) →
      ((Merger.publishRefs o ref s entries).2.1).zuulRefs = s.zuulRefs := by
  induction entries with
  | nil => intro s _; rfl
  | cons kv rest ih =>
    intro s hno
    obtain ⟨⟨p, b⟩, v⟩ := kv
    by_cases hp : p ∈ s.repos
    · by_cases hcr : o.createOk p (b ++ "/" ++ ref) v
      · exfalso
        apply hno p (b ++ "/" ++ ref) v
        rw [publishRefs_cons_ok o ref s p b v rest hp hcr]
        exact List.mem_cons_self _ _
      · exfalso
        apply hno p (b ++ "/" ++ ref) v
        rw [publishRefs_cons_fail o ref s p b v rest hp (by simpa using hcr)]
        exact List.mem_cons_self _ _
    · rw [publishRefs_cons_noRepo o ref s p b v rest hp]

theorem publishRefs_false_createOk (o : Oracle) (ref : String) (entries : Recent) :
    ∀ s : MState, RecentOk s entries →
      (Merger.publishRefs o ref s entries).1 = false →
      ∃ kv ∈ entries, o.createOk kv.1.1 (kv.1.2 ++ "/" ++ ref) kv.2 = false := by
  induction entries with
  | nil =>
    intro s _ hf
    cases hf
  | cons kv0 rest ih =>
    intro s hro hf
    obtain ⟨⟨p, b⟩, v⟩ := kv0
    have hp : p ∈ s.repos := hro ((p, b), v) (List.mem_cons_self _ _)
    by_cases hcr : o.createOk p (b ++ "/" ++ ref) v
    · rw [publishRefs_cons_ok o ref s p b v rest hp hcr] at hf
      have hro2 : RecentOk { s with zuulRefs := alistSet s.zuulRefs (p, b ++ "/" ++ ref) v } rest :=
        fun kv hkv => hro kv (List.mem_cons_of_mem _ hkv)
      rcases ih _ hro2 hf with ⟨kv, hkv, hbad⟩
      exact ⟨kv, List.mem_cons_of_mem _ hkv, hbad⟩
    · exact ⟨((p, b), v), List.mem_cons_self _ _, by simpa using hcr⟩

theorem alistSet_ne_nil {α β : Type} [DecidableEq α] (m : List (α × β)) (k : α) (v : β) :
    alistSet m k v ≠ [] := by
  cases m with
  | nil => simp [alistSet]
  | cons kv rest =>
    obtain ⟨k0, v0⟩ := kv
    by_cases h0 : k0 = k <;> simp [alistSet, h0]

theorem publishRefs_true_cons_trace (o : Oracle) (ref : String) (s : MState)
    (p b : String) (v : Commit) (rest : Recent)
    (hflag : (Merger.publishRefs o ref s (((p, b), v) :: rest)).1 = true) :
    GitOp.createRef p (b ++ "/" ++ ref) v ∈
      (Merger.publishRefs o ref s (((p, b), v) :: rest)).2.2 := by
  by_cases hp : p ∈ s.repos
  · by_cases hcr : o.createOk p (b ++ "/" ++ ref) v
    · rw [publishRefs_cons_ok o ref s p b v rest hp hcr]
      exact List.mem_cons_self _ _
    · rw [publishRefs_cons_fail o ref s p b v rest hp (by simpa using hcr)] at hflag
      cases hflag
  · rw [publishRefs_cons_noRepo o ref s p b v rest hp] at hflag
    cases hflag

/-
Inversion lemmas for `applyAndPublish` (the merge-then-publish tail of
`_mergeItem`).
-/

theorem applyAndPublish_inv_repos (o : Oracle) (s : MState) (item : ChangeItem)
    (recent : Recent) (base : Commit) (res : Except PyErr (Option Commit))
    (s' : MState) (r' : Recent) (t : Trace)
    (h : Merger.applyAndPublish o s item recent base = (res, s', r', t)) :
    s.repos ⊆ s'.repos ∧
    (r' = recent ∨ ∃ c, r' = alistSet recent (item.project, item.branch) c) := by
  have e2 : (Merger.applyAndPublish o s item recent base).2.1 = s' := by rw [h]
  have e3 : (Merger.applyAndPublish o s item recent base).2.2.1 = r' := by rw [h]
  subst e2
  subst e3
  clear h
  unfold Merger.applyAndPublish
  split
  next e s1 t1 hmc =>
    refine ⟨?_, Or.inl rfl⟩
    have h1 := (mergeChange_cases o s item base).2.1
    rw [hmc] at h1
    exact h1
  next s1 t1 hmc =>
    refine ⟨?_, Or.inl rfl⟩
    have h1 := (mergeChange_cases o s item base).2.1
    rw [hmc] at h1
    exact h1
  next c0 s1 t1 hmc =>
    dsimp only
    split
    next s2 t2 hpub =>
      refine ⟨?_, Or.inr ⟨c0, rfl⟩⟩
      have h1 := (mergeChange_cases o s item base).2.1
      rw [hmc] at h1
      have h2 := publishRefs_repos o item.ref
        (alistSet recent (item.project, item.branch) c0) s1
      rw [hpub] at h2
      rw [show ((Except.ok (some c0) : Except PyErr (Option Commit)), s2,
        alistSet recent (item.project, item.branch) c0, t1 ++ t2).2.1 = s2 from rfl, h2]
      exact h1
    next s2 t2 hpub =>
      refine ⟨?_, Or.inr ⟨c0, rfl⟩⟩
      have h1 := (mergeChange_cases o s item base).2.1
      rw [hmc] at h1
      have h2 := publishRefs_repos o item.ref
        (alistSet recent (item.project, item.branch) c0) s1
      rw [hpub] at h2
      rw [show ((Except.ok (none : Option Commit) : Except PyErr (Option Commit)), s2,
        alistSet recent (item.project, item.branch) c0, t1 ++ t2).2.1 = s2 from rfl, h2]
      exact h1

theorem applyAndPublish_ok_inv (o : Oracle) (s : MState) (item : ChangeItem)
    (recent : Recent) (base : Commit) (c : Commit)
    (s' : MState) (r' : Recent) (t : Trace)
    (h : Merger.applyAndPublish o s item recent base = (.ok (some c), s', r', t)) :
    r' = alistSet recent (item.project, item.branch) c ∧
    ((recent.map Prod.fst).Nodup →
      ∀ kv ∈ r', alistGet s'.zuulRefs (kv.1.1, kv.1.2 ++ "/" ++ item.ref) = some kv.2) := by
  have e1 : (Merger.applyAndPublish o s item recent base).1 = .ok (some c) := by rw [h]
  have e2 : (Merger.applyAndPublish o s item recent base).2.1 = s' := by rw [h]
  have e3 : (Merger.applyAndPublish o s item recent base).2.2.1 = r' := by rw [h]
  subst e2
  subst e3
  clear h
  revert e1
  unfold Merger.applyAndPublish
  split
  next e s1 t1 hmc =>
    intro e1
    simp at e1
  next s1 t1 hmc =>
    intro e1
    simp at e1
  next c0 s1 t1 hmc =>
    dsimp only
    split
    next s2 t2 hpub =>
      intro e1
      have hc0 : c0 = c := by simpa using e1
      subst hc0
      refine ⟨rfl, fun hnd kv hkv => ?_⟩
      have hnd1 := alistSet_keys_nodup recent (item.project, item.branch) c0 hnd
      have hflag : (Merger.publishRefs o item.ref s1
          (alistSet recent (item.project, item.branch) c0)).1 = true := by rw [hpub]
      have hget := publishRefs_true_get o item.ref
        (alistSet recent (item.project, item.branch) c0) s1 hnd1 hflag kv hkv
      rw [hpub] at hget
      exact hget
    next s2 t2 hpub =>
      intro e1
      simp at e1

theorem applyAndPublish_zuulRefs_inv (o : Oracle) (s : MState) (item : ChangeItem)
    (recent : Recent) (base : Commit) (res : Except PyErr (Option Commit))
    (s' : MState) (r' : Recent) (t : Trace)
    (h : Merger.applyAndPublish o s item recent base = (res, s', r', t))
    (hno : ∀ p rn c0, GitOp.createRef p rn c0 ∉ t) :
    s'.zuulRefs = s.zuulRefs := by
  have e2 : (Merger.applyAndPublish o s item recent base).2.1 = s' := by rw [h]
  have e4 : (Merger.applyAndPublish o s item recent base).2.2.2 = t := by rw [h]
  subst e2
  subst e4
  clear h
  revert hno
  unfold Merger.applyAndPublish
  split
  next e s1 t1 hmc =>
    intro hno
    have h1 := (mergeChange_cases o s item base).1
    rw [hmc] at h1
    exact h1
  next s1 t1 hmc =>
    intro hno
    have h1 := (mergeChange_cases o s item base).1
    rw [hmc] at h1
    exact h1
  next c0 s1 t1 hmc =>
    dsimp only
    split
    next s2 t2 hpub =>
      intro hno
      exfalso
      have hflag : (Merger.publishRefs o item.ref s1
          (alistSet recent (item.project, item.branch) c0)).1 = true := by rw [hpub]
      rcases halist : alistSet recent (item.project, item.branch) c0 with _ | ⟨⟨⟨p0, b0⟩, v0⟩, rest0⟩
      · exact alistSet_ne_nil recent (item.project, item.branch) c0 halist
      · rw [halist] at hflag
        have hmem := publishRefs_true_cons_trace o item.ref s1 p0 b0 v0 rest0 hflag
        rw [← halist] at hmem
        rw [hpub] at hmem
        exact hno p0 (b0 ++ "/" ++ item.ref) v0 (List.mem_append_right t1 hmem)
    next s2 t2 hpub =>
      intro hno
      have h1 := (mergeChange_cases o s item base).1
      rw [hmc] at h1
      have h2 := publishRefs_no_createRef o item.ref
        (alistSet recent (item.project, item.branch) c0) s1 ?_
      · rw [hpub] at h2
        exact h2.trans h1
      · intro p rn c1 hmemt
        rw [hpub] at hmemt
        exact hno p rn c1 (List.mem_append_right t1 hmemt)

theorem applyAndPublish_trace_inv (o : Oracle) (s : MState) (item : ChangeItem)
    (recent : Recent) (base : Commit) (res : Except PyErr (Option Commit))
    (s' : MState) (r' : Recent) (t : Trace)
    (h : Merger.applyAndPublish o s item recent base = (res, s', r', t))
    (hok : (Merger.getRepo s item.project item.url).1 = .ok ()) :
    ∃ t0, t = GitOp.checkout item.project base :: t0 := by
  have e4 : (Merger.applyAndPublish o s item recent base).2.2.2 = t := by rw [h]
  subst e4
  clear h
  obtain ⟨tc, htc⟩ := (mergeChange_cases o s item base).2.2 hok
  unfold Merger.applyAndPublish
  split
  next e s1 t1 hmc =>
    rw [hmc] at htc
    exact ⟨tc, htc⟩
  next s1 t1 hmc =>
    rw [hmc] at htc
    exact ⟨tc, htc⟩
  next c0 s1 t1 hmc =>
    dsimp only
    split
    next s2 t2 hpub =>
      rw [hmc] at htc
      refine ⟨tc ++ t2, ?_⟩
      have ht1 : t1 = GitOp.checkout item.project base :: tc := htc
      simp [ht1]
    next s2 t2 hpub =>
      rw [hmc] at htc
      refine ⟨tc ++ t2, ?_⟩
      have ht1 : t1 = GitOp.checkout item.project base :: tc := htc
      simp [ht1]

theorem applyAndPublish_trace_app (o : Oracle) (s : MState) (item : ChangeItem)
    (recent : Recent) (base : Commit)
    (hok : (Merger.getRepo s item.project item.url).1 = .ok ()) :
    ∃ t0, (Merger.applyAndPublish o s item recent base).2.2.2 =
      GitOp.checkout item.project base :: t0 :=
  applyAndPublish_trace_inv o s item recent base _ _ _ _ rfl hok

/-- Combined inversion principle for `_mergeItem`: the registry only grows;
the SpeculativeCache is returned unchanged or with exactly the item's
(project, branch) key updated, then belonging to a registered project; a
returned commit is cached under the item's key; a run whose trace holds no
marker-reference write leaves the marker references untouched; a successful
run that did not short-circuit publishes a marker named
`branch ++ "/" ++ item.ref` for every cache entry; and a successful run from
an empty cache leaves the item's own marker resolving to the returned
commit, with the project registered. -/
theorem mergeItem_inv (o : Oracle) (s : MState) (item : ChangeItem)
    (recent : Recent) (res : Except PyErr (Option Commit))
    (s' : MState) (r' : Recent) (t : Trace)
    (h : Merger._mergeItem o s item recent = (res, s', r', t)) :
    s.repos ⊆ s'.repos ∧
    (r' = recent ∨
      (item.project ∈ s'.repos ∧
       ∃ c, r' = alistSet recent (item.project, item.branch) c)) ∧
    (∀ c, res = .ok (some c) →
      alistGet r' (item.project, item.branch) = some c) ∧
    ((∀ p rn c0, GitOp.createRef p rn c0 ∉ t) → s'.zuulRefs = s.zuulRefs) ∧
    (∀ c, res = .ok (some c) →
      Repo.getCommitFromRef s item.project (item.branch ++ "/" ++ item.ref) = none →
      (recent.map Prod.fst).Nodup →
      ∀ kv ∈ r', Repo.getCommitFromRef s' kv.1.1 (kv.1.2 ++ "/" ++ item.ref) = some kv.2) ∧
    (∀ c, res = .ok (some c) → recent = [] →
      Repo.getCommitFromRef s' item.project (item.branch ++ "/" ++ item.ref) = some c ∧
      item.project ∈ s'.repos) := by
  have e1 : (Merger._mergeItem o s item recent).1 = res := by rw [h]
  have e2 : (Merger._mergeItem o s item recent).2.1 = s' := by rw [h]
  have e3 : (Merger._mergeItem o s item recent).2.2.1 = r' := by rw [h]
  have e4 : (Merger._mergeItem o s item recent).2.2.2 = t := by rw [h]
  subst e1
  subst e2
  subst e3
  subst e4
  clear h
  unfold Merger._mergeItem
  split
  next e s1 hg =>
    have hsub : s.repos ⊆ s1.repos := by
      have := getRepo_repos_sub s item.project item.url
      rw [hg] at this
      exact this
    have hz : s1.zuulRefs = s.zuulRefs := by
      have := getRepo_zuulRefs s item.project item.url
      rw [hg] at this
      exact this
    refine ⟨hsub, Or.inl rfl, ?_, fun _ => hz, ?_, ?_⟩
    · intro c hres
      exact absurd hres (by simp)
    · intro c hres
      exact absurd hres (by simp)
    · intro c hres
      exact absurd hres (by simp)
  next u s1 hg =>
    have hgok : (Merger.getRepo s item.project item.url).1 = .ok () := by rw [hg]
    have hsub : s.repos ⊆ s1.repos := by
      have := getRepo_repos_sub s item.project item.url
      rw [hg] at this
      exact this
    have hz : s1.zuulRefs = s.zuulRefs := by
      have := getRepo_zuulRefs s item.project item.url
      rw [hg] at this
      exact this
    have hmem : item.project ∈ s1.repos := by
      have := getRepo_ok_mem s item.project item.url hgok
      rw [hg] at this
      exact this
    dsimp only
    split
    next commit hm =>
      refine ⟨hsub, Or.inr ⟨hmem, commit, rfl⟩, ?_, fun _ => hz, ?_, ?_⟩
      · intro c hres
        have hcc : commit = c := by simpa using hres
        subst hcc
        exact alistGet_set_same recent (item.project, item.branch) commit
      · intro c hres hmiss hnd kv hkv
        exfalso
        unfold Repo.getCommitFromRef at hm hmiss
        rw [hz] at hm
        rw [hm] at hmiss
        cases hmiss
      · intro c hres hnil
        have hcc : commit = c := by simpa using hres
        subst hcc
        exact ⟨hm, hmem⟩
    next hm =>
      split
      next base hb =>
        have hap := applyAndPublish_inv_repos o s1 item recent base _ _ _ _ rfl
        refine ⟨hsub.trans hap.1, ?_, ?_, ?_, ?_, ?_⟩
        · rcases hap.2 with h1 | ⟨c, h1⟩
          · exact Or.inl h1
          · exact Or.inr ⟨hap.1 hmem, c, h1⟩
        · intro c hres
          have hok := applyAndPublish_ok_inv o s1 item recent base c _ _ _
            (Prod.ext hres rfl)
          rw [hok.1]
          exact alistGet_set_same recent (item.project, item.branch) c
        · intro hno
          have := applyAndPublish_zuulRefs_inv o s1 item recent base _ _ _ _ rfl hno
          exact this.trans hz
        · intro c hres hmiss hnd kv hkv
          have hok := applyAndPublish_ok_inv o s1 item recent base c _ _ _
            (Prod.ext hres rfl)
          exact hok.2 hnd kv hkv
        · intro c hres hnil
          subst hnil
          have hok := applyAndPublish_ok_inv o s1 item [] base c _ _ _
            (Prod.ext hres rfl)
          constructor
          · have hkv : ((item.project, item.branch), c) ∈
                (Merger.applyAndPublish o s1 item [] base).2.2.1 := by
              rw [hok.1]
              exact List.mem_cons_self _ _
            exact hok.2 (by simp) _ hkv
          · exact hap.1 hmem
      next hb =>
        split
        next e s2 t0 hres =>
          have hz2 : s2.zuulRefs = s1.zuulRefs := by
            have := reset_zuulRefs o s1 item.project
            rw [hres] at this
            exact this
          have hr2 : s2.repos = s1.repos := by
            have := reset_repos o s1 item.project
            rw [hres] at this
            exact this
          refine ⟨by rw [hr2]; exact hsub, Or.inl rfl, ?_, fun _ => hz2.trans hz, ?_, ?_⟩
          · intro c hcc
            exact absurd hcc (by simp)
          · intro c hcc
            exact absurd hcc (by simp)
          · intro c hcc
            exact absurd hcc (by simp)
        next u2 s2 t0 hres =>
          have hz2 : s2.zuulRefs = s1.zuulRefs := by
            have := reset_zuulRefs o s1 item.project
            rw [hres] at this
            exact this
          have hr2 : s2.repos = s1.repos := by
            have := reset_repos o s1 item.project
            rw [hres] at this
            exact this
          split
          next e hbh =>
            refine ⟨by rw [hr2]; exact hsub, Or.inl rfl, ?_, fun _ => hz2.trans hz, ?_, ?_⟩
            · intro c hcc
              exact absurd hcc (by simp)
            · intro c hcc
              exact absurd hcc (by simp)
            · intro c hcc
              exact absurd hcc (by simp)
          next base hbh =>
            have hap := applyAndPublish_inv_repos o s2 item recent base _ _ _ _ rfl
            have hmem2 : item.project ∈ s2.repos := by
              rw [hr2]
              exact hmem
            refine ⟨?_, ?_, ?_, ?_, ?_, ?_⟩
            · refine hsub.trans ?_
              rw [← hr2]
              exact hap.1
            · rcases hap.2 with h1 | ⟨c, h1⟩
              · exact Or.inl h1
              · exact Or.inr ⟨hap.1 hmem2, c, h1⟩
            · intro c hcc
              have hok := applyAndPublish_ok_inv o s2 item recent base c _ _ _
                (Prod.ext hcc rfl)
              rw [hok.1]
              exact alistGet_set_same recent (item.project, item.branch) c
            · intro hno
              have hno2 : ∀ p rn c0, GitOp.createRef p rn c0 ∉
                  (Merger.applyAndPublish o s2 item recent base).2.2.2 := by
                intro p rn c0 hmm
                exact hno p rn c0 (List.mem_append_right t0 hmm)
              have := applyAndPublish_zuulRefs_inv o s2 item recent base _ _ _ _ rfl hno2
              exact this.trans (hz2.trans hz)
            · intro c hcc hmiss hnd kv hkv
              have hok := applyAndPublish_ok_inv o s2 item recent base c _ _ _
                (Prod.ext hcc rfl)
              exact hok.2 hnd kv hkv
            · intro c hcc hnil
              subst hnil
              have hok := applyAndPublish_ok_inv o s2 item [] base c _ _ _
                (Prod.ext hcc rfl)
              constructor
              · have hkv : ((item.project, item.branch), c) ∈
                    (Merger.applyAndPublish o s2 item [] base).2.2.1 := by
                  rw [hok.1]
                  exact List.mem_cons_self _ _
                exact hok.2 (by simp) _ hkv
              · exact hap.1 hmem2

/-- The marker-reference short-circuit (merger.py:308-316): when the zuul
reference already resolves, `_mergeItem` only records the commit in the
cache and returns it, with an empty operation trace. -/
theorem mergeItem_marker_eq (o : Oracle) (s : MState) (item : ChangeItem)
    (recent : Recent) (c : Commit)
    (hok : (Merger.getRepo s item.project item.url).1 = .ok ())
    (hhit : Repo.getCommitFromRef s item.project (item.branch ++ "/" ++ item.ref) = some c) :
    Merger._mergeItem o s item recent =
      (.ok (some c), (Merger.getRepo s item.project item.url).2,
       alistSet recent (item.project, item.branch) c, []) := by
  have hpair : Merger.getRepo s item.project item.url =
      (.ok (), (Merger.getRepo s item.project item.url).2) := Prod.ext hok rfl
  have hhit1 : Repo.getCommitFromRef (Merger.getRepo s item.project item.url).2 item.project
      (item.branch ++ "/" ++ item.ref) = some c := by
    unfold Repo.getCommitFromRef at hhit ⊢
    rw [getRepo_zuulRefs]
    exact hhit
  conv_lhs => rw [Merger._mergeItem, hpair]
  dsimp only
  rw [hhit1]

/-- With no marker reference and a cached base for the item's key,
`_mergeItem` is exactly `applyAndPublish` at that base (merger.py:318-334). -/
theorem mergeItem_cached_eq (o : Oracle) (s : MState) (item : ChangeItem)
    (recent : Recent) (base : Commit)
    (hok : (Merger.getRepo s item.project item.url).1 = .ok ())
    (hmiss : Repo.getCommitFromRef s item.project (item.branch ++ "/" ++ item.ref) = none)
    (hbase : alistGet recent (item.project, item.branch) = some base) :
    Merger._mergeItem o s item recent =
      Merger.applyAndPublish o (Merger.getRepo s item.project item.url).2 item recent base := by
  have hpair : Merger.getRepo s item.project item.url =
      (.ok (), (Merger.getRepo s item.project item.url).2) := Prod.ext hok rfl
  have hmiss1 : Repo.getCommitFromRef (Merger.getRepo s item.project item.url).2 item.project
      (item.branch ++ "/" ++ item.ref) = none := by
    unfold Repo.getCommitFromRef at hmiss ⊢
    rw [getRepo_zuulRefs]
    exact hmiss
  conv_lhs => rw [Merger._mergeItem, hpair]
  dsimp only
  rw [hmiss1]
  dsimp only
  rw [hbase]

/-- With no marker reference and no cached base, a succeeding reset followed
by a branch-head read from the freshly force-updated heads makes the item's
trace start with the update, the reset, and the checkout of the
remote-tracking head of its branch (merger.py:318-334). -/
theorem mergeItem_fresh_trace (o : Oracle) (s : MState) (item : ChangeItem)
    (recent : Recent) (c : Commit)
    (hok : (Merger.getRepo s item.project item.url).1 = .ok ())
    (hmiss : Repo.getCommitFromRef s item.project (item.branch ++ "/" ++ item.ref) = none)
    (hnb : alistGet recent (item.project, item.branch) = none)
    (hu : o.updateOk item.project = true) (hr : o.resetOk item.project = true)
    (hnd : ((o.remoteBranches item.project).map Prod.fst).Nodup)
    (hc : (item.branch, c) ∈ o.remoteBranches item.project) :
    ∃ t0, (Merger._mergeItem o s item recent).2.2.2 =
      GitOp.updateOp item.project :: GitOp.reset item.project ::
      GitOp.checkout item.project c :: t0 := by
  have hpair : Merger.getRepo s item.project item.url =
      (.ok (), (Merger.getRepo s item.project item.url).2) := Prod.ext hok rfl
  have hmiss1 : Repo.getCommitFromRef (Merger.getRepo s item.project item.url).2 item.project
      (item.branch ++ "/" ++ item.ref) = none := by
    unfold Repo.getCommitFromRef at hmiss ⊢
    rw [getRepo_zuulRefs]
    exact hmiss
  have hbh : Repo.getBranchHead
      { (Merger.getRepo s item.project item.url).2 with
        heads := (o.remoteBranches item.project).foldl
          (fun h bc => alistSet h (item.project, bc.1) bc.2)
          ((Merger.getRepo s item.project item.url).2).heads,
        workHead := alistSet ((Merger.getRepo s item.project item.url).2).workHead
          item.project (o.remoteHead item.project) }
      item.project item.branch = .ok c := by
    unfold Repo.getBranchHead
    rw [alistGet_foldl_set_mem (o.remoteBranches item.project) _ item.project item.branch c hnd hc]
  have htr : (Merger._mergeItem o s item recent).2.2.2 =
      [GitOp.updateOp item.project, GitOp.reset item.project] ++
        (Merger.applyAndPublish o
          { (Merger.getRepo s item.project item.url).2 with
            heads := (o.remoteBranches item.project).foldl
              (fun h bc => alistSet h (item.project, bc.1) bc.2)
              ((Merger.getRepo s item.project item.url).2).heads,
            workHead := alistSet ((Merger.getRepo s item.project item.url).2).workHead
              item.project (o.remoteHead item.project) }
          item recent c).2.2.2 := by
    conv_lhs => rw [Merger._mergeItem, hpair]
    dsimp only
    rw [hmiss1]
    dsimp only
    rw [hnb]
    dsimp only
    rw [reset_ok_eq o (Merger.getRepo s item.project item.url).2 item.project hu hr]
    dsimp only
    rw [hbh]
  rw [htr]
  have hmem : item.project ∈ ((Merger.getRepo s item.project item.url).2).repos :=
    getRepo_ok_mem s item.project item.url hok
  obtain ⟨t1, ht1⟩ := applyAndPublish_trace_app o
    { (Merger.getRepo s item.project item.url).2 with
      heads := (o.remoteBranches item.project).foldl
        (fun h bc => alistSet h (item.project, bc.1) bc.2)
        ((Merger.getRepo s item.project item.url).2).heads,
      workHead := alistSet ((Merger.getRepo s item.project item.url).2).workHead
        item.project (o.remoteHead item.project) }
    item recent c (getRepo_ok _ item.project item.url (Or.inr hmem))
  refine ⟨t1, ?_⟩
  rw [ht1]
  rfl

/-
Single-step unfolding equations for the mergeChanges loop and for the
transparent success description `runItems`.
-/

theorem mergeLoop_nil_none (o : Oracle) (s : MState) (recent : Recent) :
    Merger.mergeLoop o s recent none [] = (.error .attributeError, s, []) := rfl

theorem mergeLoop_nil_some (o : Oracle) (s : MState) (recent : Recent) (c : Commit) :
    Merger.mergeLoop o s recent (some c) [] = (.ok (some c), s, []) := rfl

theorem mergeLoop_cons (o : Oracle) (s : MState) (recent : Recent)
    (c0 : Option Commit) (item : ChangeItem) (rest : List ChangeItem) :
    Merger.mergeLoop o s recent c0 (item :: rest) =
      (match Merger._mergeItem o s item recent with
       | (.error e, s1, _, t) => (.error e, s1, t)
       | (.ok none, s1, _, t) => (.ok none, s1, t)
       | (.ok (some c), s1, recent1, t) =>
         ((Merger.mergeLoop o s1 recent1 (some c) rest).1,
          (Merger.mergeLoop o s1 recent1 (some c) rest).2.1,
          t ++ (Merger.mergeLoop o s1 recent1 (some c) rest).2.2)) := by
  cases c0 <;> rfl

theorem runItems_cons (o : Oracle) (s : MState) (recent : Recent)
    (item : ChangeItem) (rest : List ChangeItem) :
    Merger.runItems o s recent (item :: rest) =
      (match Merger._mergeItem o s item recent with
       | (.ok (some c), s1, r1, _) =>
         (match rest with
          | [] => some (s1, r1, c)
          | _ :: _ => Merger.runItems o s1 r1 rest)
       | (.ok none, _, _, _) => none
       | (.error _, _, _, _) => none) := rfl

/-- The loop of mergeChanges returns a commit exactly when either the queue
is empty and the running commit variable already held it, or every item
succeeded and it is the last item's commit. -/
theorem mergeLoop_ok_iff (o : Oracle) (items : List ChangeItem) :
    ∀ (s : MState) (recent : Recent) (c0 : Option Commit) (hx : Commit),
      (Merger.mergeLoop o s recent c0 items).1 = .ok (some hx) ↔
      ((items = [] ∧ c0 = some hx) ∨
       ∃ s' r', Merger.runItems o s recent items = some (s', r', hx)) := by
  induction items with
  | nil =>
    intro s recent c0 hx
    cases c0 with
    | none => simp [mergeLoop_nil_none, Merger.runItems]
    | some c => simp [mergeLoop_nil_some, Merger.runItems]
  | cons item rest ih =>
    intro s recent c0 hx
    rcases hmi : Merger._mergeItem o s item recent with ⟨mres, s1, r1, t1⟩
    rw [mergeLoop_cons, runItems_cons, hmi]
    rcases mres with e | oc
    · simp
    · rcases oc with _ | c
      · simp
      · dsimp only
        cases rest with
        | nil =>
          rw [mergeLoop_nil_some]
          constructor
          · intro hcx
            have hceq : c = hx := by simpa using hcx
            exact Or.inr ⟨s1, r1, by rw [hceq]⟩
          · rintro (⟨hcon, _⟩ | ⟨s2, r2, hr⟩)
            · exact absurd hcon (by simp)
            · have hceq : c = hx := congrArg (fun q => q.2.2) (Option.some.inj hr)
              simp [hceq]
        | cons x xs =>
          dsimp only
          rw [ih s1 r1 (some c) hx]
          simp

theorem mergeChanges_eq_loop (o : Oracle) (s : MState) (items : List ChangeItem) :
    Merger.mergeChanges o s items = Merger.mergeLoop o s [] none items := rfl

/-- A single-item mergeChanges call that returns a commit leaves the item's
marker reference resolving to exactly that commit, with the item's project
registered. -/
theorem mergeChanges_single_ok (o : Oracle) (s : MState) (item : ChangeItem)
    (c : Commit) (s1 : MState) (t1 : Trace)
    (h : Merger.mergeChanges o s [item] = (.ok (some c), s1, t1)) :
    Repo.getCommitFromRef s1 item.project (item.branch ++ "/" ++ item.ref) = some c ∧
    item.project ∈ s1.repos := by
  rw [mergeChanges_eq_loop] at h
  rcases hmi : Merger._mergeItem o s item [] with ⟨mres, s2, r2, t2⟩
  rw [mergeLoop_cons, hmi] at h
  rcases mres with e | oc
  · dsimp only at h
    exact absurd (congrArg (fun q => q.1) h) (by simp)
  · rcases oc with _ | c2
    · dsimp only at h
      exact absurd (congrArg (fun q => q.1) h) (by simp)
    · dsimp only at h
      rw [mergeLoop_nil_some] at h
      have hc : c2 = c := by
        have := congrArg (fun q => q.1) h
        simpa using this
      have hs : s2 = s1 := by
        have := congrArg (fun q => q.2.1) h
        simpa using this
      subst hc
      subst hs
      exact (mergeItem_inv o s item [] _ _ _ _ hmi).2.2.2.2.2 c2 rfl rfl

/-
Claim theorems.
-/

/-- C1 counterexample: with an external tool that fails only the write of
marker reference b/r3 in project p2, the queue [itemA, itemB, itemC] fails
at itemC (the two-item prefix succeeds, the full call returns the Python
None), yet a marker reference named with itemC's branch and ref — for
itemC's own (project, branch) — has been created during the failed call. -/
theorem c1_counterexample :
    (Merger.mergeChanges oC1 s0 [itemA, itemB]).1 = .ok (some 21) ∧
    (Merger.mergeChanges oC1 s0 [itemA, itemB, itemC]).1 = .ok none ∧
    Repo.getCommitFromRef (Merger.mergeChanges oC1 s0 [itemA, itemB, itemC]).2.1
      "p1" ("b" ++ "/" ++ itemC.ref) = some 12 := by
  refine ⟨by decide, by decide, by decide⟩

/-- C1 (amended): mergeChanges returns a commit identifier exactly when
every item of the (nonempty) queue succeeds, and that identifier is the
commit produced by the last item; on the first item that fails the call
returns failure immediately — the final state and operation trace are those
of the failed item, so later items are not processed; and when no marker
write was attempted during the failed item (the failure occurred before the
publication loop), the marker references — in particular any for the failed
item's (project, branch) — are exactly as before the item. -/
theorem c1_success_and_failfast :
    (∀ (o : Oracle) (s : MState) (items : List ChangeItem) (hx : Commit),
      (Merger.mergeChanges o s items).1 = .ok (some hx) ↔
      ∃ s' r', Merger.runItems o s [] items = some (s', r', hx)) ∧
    (∀ (o : Oracle) (s : MState) (item : ChangeItem) (rest : List ChangeItem)
        (recent : Recent) (c0 : Option Commit) (s1 : MState) (r1 : Recent) (t : Trace),
      Merger._mergeItem o s item recent = (.ok none, s1, r1, t) →
      Merger.mergeLoop o s recent c0 (item :: rest) = (.ok none, s1, t)) ∧
    (∀ (o : Oracle) (s : MState) (item : ChangeItem) (recent : Recent)
        (res : Except PyErr (Option Commit)) (s1 : MState) (r1 : Recent) (t : Trace),
      Merger._mergeItem o s item recent = (res, s1, r1, t) →
      (∀ p rn c0, GitOp.createRef p rn c0 ∉ t) →
      s1.zuulRefs = s.zuulRefs) := by
  refine ⟨?_, ?_, ?_⟩
  · intro o s items hx
    rw [mergeChanges_eq_loop, mergeLoop_ok_iff]
    simp
  · intro o s item rest recent c0 s1 r1 t h
    rw [mergeLoop_cons, h]
  · intro o s item recent res s1 r1 t h hno
    exact (mergeItem_inv o s item recent res s1 r1 t h).2.2.2.1 hno

/-- C1 witness: the fail-fast conjunct at a concrete queue whose first item
has an unsupported merge mode — the loop stops there and the second item
contributes nothing to state or trace. -/
theorem c1_witness :
    Merger.mergeLoop oBase s0 [] none [itemU, itemA] =
      (.ok none, ⟨["p1"], [], [(("p1", "b"), 10)], [("p1", 10)]⟩,
       [.updateOp "p1", .reset "p1", .checkout "p1" 10]) :=
  c1_success_and_failfast.2.1 oBase s0 itemU [itemA] [] none
    ⟨["p1"], [], [(("p1", "b"), 10)], [("p1", 10)]⟩ []
    [.updateOp "p1", .reset "p1", .checkout "p1" 10] (by decide)

/-- C2 counterexample: itemA2 merges on (p1, b1); itemB2 then succeeds via
the marker-reference short-circuit (its marker b2/r2 pre-exists in sC2).
After itemB2 succeeds, (p1, b1) is in the cache with commit 11, yet no
marker reference named b1/r2 (itemB2's ref) exists in project p1 — the
short-circuit path skips the publication loop entirely. -/
theorem c2_counterexample :
    (Merger._mergeItem oC2 sC2 itemA2 []).1 = .ok (some 11) ∧
    (Merger._mergeItem oC2 (Merger._mergeItem oC2 sC2 itemA2 []).2.1 itemB2
      (Merger._mergeItem oC2 sC2 itemA2 []).2.2.1).1 = .ok (some 77) ∧
    alistGet (Merger._mergeItem oC2 (Merger._mergeItem oC2 sC2 itemA2 []).2.1 itemB2
      (Merger._mergeItem oC2 sC2 itemA2 []).2.2.1).2.2.1 ("p1", "b1") = some 11 ∧
    Repo.getCommitFromRef (Merger._mergeItem oC2 (Merger._mergeItem oC2 sC2 itemA2 []).2.1
      itemB2 (Merger._mergeItem oC2 sC2 itemA2 []).2.2.1).2.1
      "p1" ("b1" ++ "/" ++ itemB2.ref) = none := by
  refine ⟨by decide, by decide, by decide, by decide⟩

/-- C2 (amended): after an item succeeds through the merge path (its marker
reference was absent at entry), every (project, branch) pair in the
SpeculativeCache at that point has a marker reference named
branch ++ "/" ++ item.ref in its project, pointing at its cached commit;
items that succeed through the marker short-circuit skip publication. -/
theorem c2_marker_propagation :
    ∀ (o : Oracle) (s : MState) (item : ChangeItem) (recent : Recent)
      (c : Commit) (s' : MState) (r' : Recent) (t : Trace),
      (recent.map Prod.fst).Nodup →
      Repo.getCommitFromRef s item.project (item.branch ++ "/" ++ item.ref) = none →
      Merger._mergeItem o s item recent = (.ok (some c), s', r', t) →
      ∀ kv ∈ r', Repo.getCommitFromRef s' kv.1.1 (kv.1.2 ++ "/" ++ item.ref) = some kv.2 :=
  fun o s item recent c s' r' t hnd hmiss h =>
    (mergeItem_inv o s item recent _ s' r' t h).2.2.2.2.1 c rfl hmiss hnd

/-- C2 witness: a concrete merge-path item leaves its own marker b/r1 at the
merged commit. -/
theorem c2_witness :
    Repo.getCommitFromRef
      (⟨["p1"], [(("p1", "b/r1"), 11)], [(("p1", "b"), 10)], [("p1", 11)]⟩ : MState)
      "p1" ("b" ++ "/" ++ "r1") = some 11 :=
  c2_marker_propagation oBase s0 itemA [] 11
    ⟨["p1"], [(("p1", "b/r1"), 11)], [(("p1", "b"), 10)], [("p1", 11)]⟩
    [(("p1", "b"), 11)]
    [.updateOp "p1", .reset "p1", .checkout "p1" 10, .fetchAttempt "p1" "s1",
     .mergeOp "p1" "s1" none, .createRef "p1" "b/r1" 11]
    (by decide) (by decide) (by decide) (("p1", "b"), 11) (by decide)

/-- C3: dependency-respecting base selection.  (a) After item1 succeeds with
commit c1, a consecutive item2 on the same (project, branch) whose marker is
absent is merged with base c1 — its first version-control operation is the
checkout of c1.  (b) An item whose (project, branch) has no cache entry
first updates and resets the working copy and then checks out the
remote-tracking head of its branch. -/
theorem c3_base_selection :
    (∀ (o : Oracle) (s : MState) (item1 item2 : ChangeItem) (recent : Recent)
        (c1 : Commit) (s1 : MState) (r1 : Recent) (t1 : Trace),
      Merger._mergeItem o s item1 recent = (.ok (some c1), s1, r1, t1) →
      item2.project = item1.project → item2.branch = item1.branch →
      (Merger.getRepo s1 item2.project item2.url).1 = .ok () →
      Repo.getCommitFromRef s1 item2.project (item2.branch ++ "/" ++ item2.ref) = none →
      ∃ t0, (Merger._mergeItem o s1 item2 r1).2.2.2 =
        GitOp.checkout item2.project c1 :: t0) ∧
    (∀ (o : Oracle) (s : MState) (item : ChangeItem) (recent : Recent) (c : Commit),
      (Merger.getRepo s item.project item.url).1 = .ok () →
      Repo.getCommitFromRef s item.project (item.branch ++ "/" ++ item.ref) = none →
      alistGet recent (item.project, item.branch) = none →
      o.updateOk item.project = true → o.resetOk item.project = true →
      ((o.remoteBranches item.project).map Prod.fst).Nodup →
      (item.branch, c) ∈ o.remoteBranches item.project →
      ∃ t0, (Merger._mergeItem o s item recent).2.2.2 =
        GitOp.updateOp item.project :: GitOp.reset item.project ::
        GitOp.checkout item.project c :: t0) := by
  constructor
  · intro o s item1 item2 recent c1 s1 r1 t1 h hp hb hok hmiss
    have hbase : alistGet r1 (item2.project, item2.branch) = some c1 := by
      rw [hp, hb]
      exact (mergeItem_inv o s item1 recent _ s1 r1 t1 h).2.2.1 c1 rfl
    rw [mergeItem_cached_eq o s1 item2 r1 c1 hok hmiss hbase]
    exact applyAndPublish_trace_app o (Merger.getRepo s1 item2.project item2.url).2
      item2 r1 c1
      (getRepo_ok _ item2.project item2.url
        (Or.inr (getRepo_ok_mem s1 item2.project item2.url hok)))
  · intro o s item recent c hok hmiss hnb hu hr hnd hc
    exact mergeItem_fresh_trace o s item recent c hok hmiss hnb hu hr hnd hc

/-- C3 witness: the fresh-base conjunct at a concrete item — the trace
starts with update, reset, and the checkout of the remote head 10. -/
theorem c3_witness :
    ∃ t0, (Merger._mergeItem oBase s0 itemA []).2.2.2 =
      GitOp.updateOp "p1" :: GitOp.reset "p1" :: GitOp.checkout "p1" 10 :: t0 :=
  c3_base_selection.2 oBase s0 itemA [] 10 (by decide) (by decide) (by decide)
    (by decide) (by decide) (by decide) (by decide)

/-- C4: marker-reference short-circuit and idempotence.  (a) When the item's
marker reference exists with commit c, `_mergeItem` records c in the cache
and returns it with an empty operation trace — no working-tree mutation.
(b) A second mergeChanges call over an unchanged single-item queue returns
the same commit identifier with an empty trace — no checkout, merge or
cherry-pick is invoked. -/
theorem c4_idempotence :
    (∀ (o : Oracle) (s : MState) (item : ChangeItem) (recent : Recent) (c : Commit),
      (Merger.getRepo s item.project item.url).1 = .ok () →
      Repo.getCommitFromRef s item.project (item.branch ++ "/" ++ item.ref) = some c →
      Merger._mergeItem o s item recent =
        (.ok (some c), (Merger.getRepo s item.project item.url).2,
         alistSet recent (item.project, item.branch) c, [])) ∧
    (∀ (o : Oracle) (s : MState) (item : ChangeItem) (c : Commit) (s1 : MState) (t1 : Trace),
      Merger.mergeChanges o s [item] = (.ok (some c), s1, t1) →
      Merger.mergeChanges o s1 [item] = (.ok (some c), s1, [])) := by
  refine ⟨fun o s item recent c hok hhit => mergeItem_marker_eq o s item recent c hok hhit, ?_⟩
  intro o s item c s1 t1 h
  obtain ⟨hmark, hmem⟩ := mergeChanges_single_ok o s item c s1 t1 h
  have heq := mergeItem_marker_eq o s1 item [] c
    (getRepo_ok s1 item.project item.url (Or.inr hmem)) hmark
  rw [mergeChanges_eq_loop, mergeLoop_cons, heq]
  dsimp only
  rw [getRepo_mem_eq s1 item.project item.url hmem]
  dsimp only
  rw [mergeLoop_nil_some]
  rfl

/-- C4 witness: after a successful first call on [itemA], the second call
returns commit 11 again, leaves the state unchanged and issues no
version-control operation at all. -/
theorem c4_witness :
    Merger.mergeChanges oBase
      (⟨["p1"], [(("p1", "b/r1"), 11)], [(("p1", "b"), 10)], [("p1", 11)]⟩ : MState)
      [itemA] =
      (.ok (some 11),
       ⟨["p1"], [(("p1", "b/r1"), 11)], [(("p1", "b"), 10)], [("p1", 11)]⟩, []) :=
  c4_idempotence.2 oBase s0 itemA 11
    ⟨["p1"], [(("p1", "b/r1"), 11)], [(("p1", "b"), 10)], [("p1", 11)]⟩
    [.updateOp "p1", .reset "p1", .checkout "p1" 10, .fetchAttempt "p1" "s1",
     .mergeOp "p1" "s1" none, .createRef "p1" "b/r1" 11]
    (by decide)

/-- C5 counterexample: for an item with unsupported merge mode 99, the code
does attempt a version-control operation before failing — the checkout of
the base is in the trace. -/
theorem c5_counterexample :
    itemU.merge_mode ≠ MERGER_MERGE ∧ itemU.merge_mode ≠ MERGER_MERGE_RESOLVE ∧
    itemU.merge_mode ≠ MERGER_CHERRY_PICK ∧
    (Merger._mergeChange oBase s0 itemU 10).1 = .ok none ∧
    GitOp.checkout "p1" 10 ∈ (Merger._mergeChange oBase s0 itemU 10).2.2 := by
  refine ⟨by decide, by decide, by decide, by decide, by decide⟩

/-- C5 (amended): an unsupported merge mode makes `_mergeChange` fail
(return None) without attempting any fetch, merge or cherry-pick — but only
after the checkout of the base, which is the single operation in its trace. -/
theorem c5_unsupported_mode :
    ∀ (o : Oracle) (s : MState) (item : ChangeItem) (base : Commit),
      item.merge_mode ≠ MERGER_MERGE → item.merge_mode ≠ MERGER_MERGE_RESOLVE →
      item.merge_mode ≠ MERGER_CHERRY_PICK →
      (Merger.getRepo s item.project item.url).1 = .ok () →
      (Merger._mergeChange o s item base).1 = .ok none ∧
      (Merger._mergeChange o s item base).2.2 = [GitOp.checkout item.project base] := by
  intro o s item base m1 m2 m3 hok
  unfold Merger._mergeChange
  split
  next e s1 hg =>
    rw [hg] at hok
    simp at hok
  next u s1 hg =>
    split
    next e s2 tc hc =>
      have hct := checkout_trace o s1 item.project base
      rw [hc] at hct
      exact ⟨rfl, hct⟩
    next c0 s2 tc hc =>
      have hct := checkout_trace o s1 item.project base
      rw [hc] at hct
      rw [if_neg m1, if_neg m2, if_neg m3]
      exact ⟨rfl, hct⟩

/-- C5 witness: the amended statement at the concrete unsupported-mode item. -/
theorem c5_witness :
    (Merger._mergeChange oBase s0 itemU 10).1 = .ok none ∧
    (Merger._mergeChange oBase s0 itemU 10).2.2 = [GitOp.checkout itemU.project 10] :=
  c5_unsupported_mode oBase s0 itemU 10 (by decide) (by decide) (by decide) (by decide)

/-- C6 counterexample: updateRepo raises to its caller when the project is
unknown and no url is supplied — getRepo is called outside the try block. -/
theorem c6_counterexample :
    Merger.updateRepo oBase s0 "p" none = (.error (.noUrl "p"), s0, []) := by
  decide

/-- C6 (amended): once the handle is obtainable (registered project, or a
url supplied), updateRepo returns normally for every input — failures of the
update itself are logged and swallowed; only the handle lookup can raise. -/
theorem c6_update_swallow :
    ∀ (o : Oracle) (s : MState) (p : String) (url : Option String),
      (p ∈ s.repos ∨ url ≠ none) →
      (Merger.updateRepo o s p url).1 = .ok () := by
  intro o s p url h
  unfold Merger.updateRepo
  split
  next e s1 hg =>
    have hko := getRepo_ok s p url (Or.symm h)
    rw [hg] at hko
    simp at hko
  next u s1 hg =>
    rfl

/-- C6 witness: a registered project with no url refreshes without raising. -/
theorem c6_witness :
    (Merger.updateRepo oBase (⟨["x"], [], [], []⟩ : MState) "x" none).1 = .ok () :=
  c6_update_swallow oBase ⟨["x"], [], [], []⟩ "x" none (Or.inl (by decide))

/-- C7: createZuulRef returns the commit it was given, makes the named
marker reference resolve to it whether or not the reference existed before
(create-or-overwrite), leaves every other reference untouched, and by the
typing of the reference table can only store commits. -/
theorem c7_createZuulRef_spec :
    ∀ (o : Oracle) (s : MState) (p name : String) (c : Commit),
      o.createOk p name c = true →
      (Repo.createZuulRef o s p name c).1 = .ok c ∧
      Repo.getCommitFromRef (Repo.createZuulRef o s p name c).2.1 p name = some c ∧
      (∀ q : String × String, q ≠ (p, name) →
        alistGet ((Repo.createZuulRef o s p name c).2.1).zuulRefs q =
          alistGet s.zuulRefs q) := by
  intro o s p name c h
  rw [createZuulRef_ok_eq o s p name c h]
  refine ⟨rfl, ?_, ?_⟩
  · unfold Repo.getCommitFromRef
    exact alistGet_set_same s.zuulRefs (p, name) c
  · intro q hq
    exact alistGet_set_ne s.zuulRefs (p, name) q c hq

/-- C7 witness: overwriting an existing marker reference (p, n) from 5 to 7. -/
theorem c7_witness :
    Repo.getCommitFromRef
      (Repo.createZuulRef oBase (⟨[], [(("p", "n"), 5)], [], []⟩ : MState) "p" "n" 7).2.1
      "p" "n" = some 7 :=
  (c7_createZuulRef_spec oBase ⟨[], [(("p", "n"), 5)], [], []⟩ "p" "n" 7 (by decide)).2.1

/-- C8: the fetch retry policy.  A successful first attempt fetches once; a
non-AssertionError failure of the first attempt propagates with no retry; a
misparsed-progress AssertionError triggers exactly one retry (two attempts
in the trace), whose outcome — success, a second AssertionError, or another
error — is final. -/
theorem c8_fetch_retry :
    ∀ (o : Oracle) (p r : String),
      (o.fetchFirst p r = .ok → Repo.fetch o p r = (.ok (), [.fetchAttempt p r])) ∧
      (o.fetchFirst p r = .cmdFail →
        Repo.fetch o p r = (.error .gitCommandError, [.fetchAttempt p r])) ∧
      (o.fetchFirst p r = .assertFail →
        (Repo.fetch o p r).2 = [.fetchAttempt p r, .fetchAttempt p r] ∧
        (o.fetchRetry p r = .ok → (Repo.fetch o p r).1 = .ok ()) ∧
        (o.fetchRetry p r = .assertFail → (Repo.fetch o p r).1 = .error .assertionError) ∧
        (o.fetchRetry p r = .cmdFail → (Repo.fetch o p r).1 = .error .gitCommandError)) := by
  intro o p r
  refine ⟨fun h1 => by unfold Repo.fetch; rw [h1],
    fun h1 => by unfold Repo.fetch; rw [h1], fun h1 => ⟨?_, ?_, ?_, ?_⟩⟩
  · unfold Repo.fetch
    rw [h1]
    rcases h2 : o.fetchRetry p r <;> rfl
  · intro h2
    unfold Repo.fetch
    rw [h1, h2]
  · intro h2
    unfold Repo.fetch
    rw [h1, h2]
  · intro h2
    unfold Repo.fetch
    rw [h1, h2]

/-- C8 witness: both attempts raise the AssertionError — the trace shows the
single retry and the failure propagates as an AssertionError. -/
theorem c8_witness :
    (Repo.fetch oC8 "p" "r").2 = [.fetchAttempt "p" "r", .fetchAttempt "p" "r"] ∧
    (Repo.fetch oC8 "p" "r").1 = .error .assertionError :=
  ⟨((c8_fetch_retry oC8 "p" "r").2.2 rfl).1,
   ((c8_fetch_retry oC8 "p" "r").2.2 rfl).2.2.1 rfl⟩

/-- C9 counterexample: on the empty queue mergeChanges raises (the model of
`commit.hexsha` with commit = None, an AttributeError); it does not return
the failure value None. -/
theorem c9_counterexample :
    Merger.mergeChanges oBase s0 [] = (.error .attributeError, s0, []) ∧
    (Merger.mergeChanges oBase s0 []).1 ≠ .ok none := by
  refine ⟨by decide, by decide⟩

/-- C9 (amended): for every oracle and state, mergeChanges on the empty
queue raises an AttributeError (commit.hexsha on None) with the state
untouched and no operation performed, rather than returning None. -/
theorem c9_empty_queue_raises :
    ∀ (o : Oracle) (s : MState),
      Merger.mergeChanges o s [] = (.error .attributeError, s, []) :=
  fun _ _ => rfl

/-- C10: every key the SpeculativeCache ever holds belongs to a registered
project (the invariant is preserved by every `_mergeItem` step from its
initial empty cache), a registered project's handle lookup with no url
always succeeds returning the state unchanged, and under the invariant the
publication loop can only fail because a marker-reference write failed —
never because of the handle lookup. -/
theorem c10_cache_registered :
    (∀ (o : Oracle) (s : MState) (item : ChangeItem) (recent : Recent)
        (res : Except PyErr (Option Commit)) (s' : MState) (r' : Recent) (t : Trace),
      RecentOk s recent →
      Merger._mergeItem o s item recent = (res, s', r', t) →
      RecentOk s' r') ∧
    (∀ (s : MState) (p : String), p ∈ s.repos → Merger.getRepo s p none = (.ok (), s)) ∧
    (∀ (o : Oracle) (ref : String) (entries : Recent) (s : MState),
      RecentOk s entries →
      (Merger.publishRefs o ref s entries).1 = false →
      ∃ kv ∈ entries, o.createOk kv.1.1 (kv.1.2 ++ "/" ++ ref) kv.2 = false) := by
  refine ⟨?_, ?_, ?_⟩
  · intro o s item recent res s' r' t hro h
    obtain ⟨hsub, hshape, _⟩ := mergeItem_inv o s item recent res s' r' t h
    rcases hshape with h1 | ⟨hmem, c, h1⟩
    · subst h1
      exact fun kv hkv => hsub (hro kv hkv)
    · subst h1
      intro kv hkv
      rcases mem_alistSet recent (item.project, item.branch) c kv hkv with h2 | h2
      · rw [h2]
        exact hmem
      · exact hsub (hro kv h2)
  · exact fun s p h => getRepo_mem_eq s p none h
  · exact fun o ref entries s hro hf => publishRefs_false_createOk o ref entries s hro hf

/-- C10 witness: the registered-lookup conjunct at a concrete registry. -/
theorem c10_witness :
    Merger.getRepo (⟨["q"], [], [], []⟩ : MState) "q" none =
      (.ok (), ⟨["q"], [], [], []⟩) :=
  c10_cache_registered.2.1 ⟨["q"], [], [], []⟩ "q" (by decide)

end Zuul
